import Mathlib

/-!
Verification of the authentication subsystem of `private-assistant-web-ui`
(backend/app/core/security.py, backend/app/core/jwks_client.py,
backend/app/api/deps.py) against its natural-language specification.

Python strings are modelled as lists of unicode scalar values (`List Char`),
bytes as natural numbers below 256, times as integer seconds since the epoch.
The `joserfc` JOSE library is modelled at the functional level: serialization
follows its compact-JWS layout (base64url of compact JSON, no padding) and
signature creation/verification is a deterministic tag over key and signing
input, which is the standard symbolic treatment of a MAC.  `jwt.decode`
verifies structure and signature only; time and issuer claims are checked by
`JWTClaimsRegistry`, mirroring the library's documented split.
-/

/-- A Python `str`: a sequence of unicode scalar values. -/
abbrev PyStr := List Char

/-- Convert a Lean string literal into the model's string type. -/
def pystr (s : String) : PyStr := s.data

/-- Python truthiness of an optional string (`None` and `""` are falsy). -/
def truthyOptStr : Option PyStr → Bool
  | none => false
  | some s => !s.isEmpty

/-- Python `s.rstrip("/")`: remove every trailing `'/'`. -/
def rstripSlash (s : PyStr) : PyStr := (s.reverse.dropWhile (· = '/')).reverse

/-- Worker for Python `str.split(sep)` with non-empty separator `s0 :: srest`:
splits on non-overlapping occurrences scanned left to right. -/
def pySplitGo (s0 : Char) (srest : PyStr) : PyStr → PyStr → List PyStr
  | [], acc => [acc.reverse]
  | c :: rest, acc =>
    if (s0 :: srest).isPrefixOf (c :: rest) then
      acc.reverse :: pySplitGo s0 srest (rest.drop srest.length) []
    else
      pySplitGo s0 srest rest (c :: acc)
termination_by s _ => s.length
decreasing_by
  · simp only [List.length_cons, List.length_drop]; omega
  · simp only [List.length_cons]; omega

/-- Python `s.split(sep)` for a non-empty separator; `"".split(sep) == [""]`. -/
def pySplit (sep : PyStr) (s : PyStr) : List PyStr :=
  match sep with
  | [] => [s]
  | s0 :: srest => pySplitGo s0 srest s []

/-- Worker for Python `str.replace(pat, repl)` with non-empty pattern:
replaces non-overlapping occurrences scanned left to right. -/
def pyReplaceGo (p0 : Char) (prest : PyStr) (repl : PyStr) : PyStr → PyStr
  | [] => []
  | c :: rest =>
    if (p0 :: prest).isPrefixOf (c :: rest) then
      repl ++ pyReplaceGo p0 prest repl (rest.drop prest.length)
    else
      c :: pyReplaceGo p0 prest repl rest
termination_by s => s.length
decreasing_by
  · simp only [List.length_cons, List.length_drop]; omega
  · simp only [List.length_cons]; omega

/-- Python `s.replace(pat, repl)` for a non-empty pattern. -/
def pyReplace (pat repl s : PyStr) : PyStr :=
  match pat with
  | [] => s
  | p0 :: prest => pyReplaceGo p0 prest repl s

/-- The base64url alphabet (RFC 4648 section 5), indexed by sextet value. -/
def b64urlChars : PyStr :=
  pystr "ABCDEFGHIJKLMNOPQRSTUVWXYZabcdefghijklmnopqrstuvwxyz0123456789-_"

/-- Character for a sextet value. -/
def sextetChar (n : Nat) : Char := b64urlChars.getD n 'A'

/-- Value of a base64 data character.  Python's `urlsafe_b64decode` translates
`-_` to `+/` and then decodes with the standard alphabet, so all four symbol
characters are accepted. -/
def sextetVal (c : Char) : Option Nat :=
  if 'A' ≤ c ∧ c ≤ 'Z' then some (c.toNat - 65)
  else if 'a' ≤ c ∧ c ≤ 'z' then some (c.toNat - 97 + 26)
  else if '0' ≤ c ∧ c ≤ '9' then some (c.toNat - 48 + 52)
  else if c = '-' ∨ c = '+' then some 62
  else if c = '_' ∨ c = '/' then some 63
  else none

/-- Whether a character carries base64 data. -/
def isB64DataChar (c : Char) : Bool := (sextetVal c).isSome

/-- Sextet stream of a byte sequence, grouping bytes in threes
(final groups of one or two bytes yield two or three sextets). -/
def b64EncodeGroups : List Nat → List Nat
  | [] => []
  | [a] => [a / 4, a % 4 * 16]
  | [a, b] => [a / 4, a % 4 * 16 + b / 16, b % 16 * 4]
  | a :: b :: c :: rest =>
    (a / 4) :: (a % 4 * 16 + b / 16) :: (b % 16 * 4 + c / 64) :: (c % 64) ::
      b64EncodeGroups rest

/-- Model of `base64.urlsafe_b64encode(bs).rstrip(b"=")`: unpadded base64url,
as produced by joserfc for each compact-JWS segment. -/
def b64urlEncode (bs : List Nat) : PyStr := (b64EncodeGroups bs).map sextetChar

/-- CPython's non-strict `binascii.a2b_base64` (Modules/binascii.c): the state
is the position in the current quad (0-3), the pending bits of the current
quad, the number of `'='` seen since the last data character, and the output
bytes in reverse.  A `'='` that completes the padding of a quad holding 2 or 3
data characters ends the decode successfully and all remaining input is
ignored; a `'='` earlier in a quad is skipped (counted only from position 2
on); characters outside the alphabet are skipped; input that ends with a
partially filled quad is an error. -/
def a2bBase64 : PyStr → Nat → Nat → Nat → List Nat → Option (List Nat)
  | [], quadPos, _, _, out => if quadPos = 0 then some out.reverse else none
  | c :: rest, quadPos, leftchar, pads, out =>
    if c = '=' then
      if 2 ≤ quadPos then
        if 4 ≤ quadPos + (pads + 1) then some out.reverse
        else a2bBase64 rest quadPos leftchar (pads + 1) out
      else a2bBase64 rest quadPos leftchar pads out
    else
      match sextetVal c with
      | none => a2bBase64 rest quadPos leftchar pads out
      | some v =>
        match quadPos with
        | 0 => a2bBase64 rest 1 v 0 out
        | 1 => a2bBase64 rest 2 (v % 16) 0 ((leftchar * 4 + v / 16) :: out)
        | 2 => a2bBase64 rest 3 (v % 4) 0 ((leftchar * 16 + v / 4) :: out)
        | _ => a2bBase64 rest 0 0 0 ((leftchar * 64 + v) :: out)

/-- Model of `base64.urlsafe_b64decode` on an `str` argument:
`_bytes_from_decode_data` fails on non-ASCII input (ValueError), the urlsafe
translation `-_` to `+/` is folded into `sextetVal`, and decoding is CPython's
non-strict `a2b_base64`, which skips junk characters and stops at a completed
padding sequence. -/
def b64urlDecodePy (s : PyStr) : Option (List Nat) :=
  if s.all (fun c => c.toNat < 128) then a2bBase64 s 0 0 0 [] else none

/-- The padding step shared by `detect_token_type` (security.py lines 54-56)
and joserfc's segment decoder: extend to a multiple of 4 with `'='`. -/
def padTo4 (s : PyStr) : PyStr :=
  let padding := 4 - s.length % 4
  if padding ≠ 4 then s ++ List.replicate padding '=' else s

/-- UTF-8 encoding of one unicode scalar value. -/
def utf8EncodeChar (c : Char) : List Nat :=
  let n := c.toNat
  if n < 0x80 then [n]
  else if n < 0x800 then [0xC0 + n / 64, 0x80 + n % 64]
  else if n < 0x10000 then [0xE0 + n / 4096, 0x80 + n / 64 % 64, 0x80 + n % 64]
  else [0xF0 + n / 262144, 0x80 + n / 4096 % 64, 0x80 + n / 64 % 64, 0x80 + n % 64]

/-- UTF-8 encoding of a string (Python `s.encode("utf-8")`). -/
def utf8Encode (s : PyStr) : List Nat :=
  s.foldr (fun c acc => utf8EncodeChar c ++ acc) []

/-- A UTF-8 continuation byte. -/
def isCont (b : Nat) : Bool := 0x80 ≤ b && b < 0xC0

/-- One step of strict UTF-8 decoding (Python `bytes.decode("utf-8")`): the
next scalar value and the remaining bytes; rejects stray continuation bytes,
truncated or overlong sequences, surrogates and out-of-range code points. -/
def utf8Next (bs : List Nat) : Option (Char × List Nat) :=
  match bs with
  | [] => none
  | b :: rest =>
    if b < 0x80 then some (Char.ofNat b, rest)
    else if b < 0xC0 then none
    else if b < 0xE0 then
      match rest with
      | b1 :: rest1 =>
        if isCont b1 then
          if 0x80 ≤ (b - 0xC0) * 64 + (b1 - 0x80) then
            some (Char.ofNat ((b - 0xC0) * 64 + (b1 - 0x80)), rest1)
          else none
        else none
      | [] => none
    else if b < 0xF0 then
      match rest with
      | b1 :: b2 :: rest2 =>
        if isCont b1 && isCont b2 then
          if 0x800 ≤ (b - 0xE0) * 4096 + (b1 - 0x80) * 64 + (b2 - 0x80)
              ∧ ¬(0xD800 ≤ (b - 0xE0) * 4096 + (b1 - 0x80) * 64 + (b2 - 0x80)
                  ∧ (b - 0xE0) * 4096 + (b1 - 0x80) * 64 + (b2 - 0x80) < 0xE000) then
            some (Char.ofNat ((b - 0xE0) * 4096 + (b1 - 0x80) * 64 + (b2 - 0x80)), rest2)
          else none
        else none
      | _ => none
    else if b < 0xF8 then
      match rest with
      | b1 :: b2 :: b3 :: rest3 =>
        if isCont b1 && isCont b2 && isCont b3 then
          if 0x10000 ≤ (b - 0xF0) * 262144 + (b1 - 0x80) * 4096 + (b2 - 0x80) * 64
                + (b3 - 0x80)
              ∧ (b - 0xF0) * 262144 + (b1 - 0x80) * 4096 + (b2 - 0x80) * 64
                + (b3 - 0x80) < 0x110000 then
            some (Char.ofNat ((b - 0xF0) * 262144 + (b1 - 0x80) * 4096
              + (b2 - 0x80) * 64 + (b3 - 0x80)), rest3)
          else none
        else none
      | _ => none
    else none

theorem utf8Next_length (bs : List Nat) (c : Char) (rest : List Nat)
    (h : utf8Next bs = some (c, rest)) : rest.length < bs.length := by
  unfold utf8Next at h
  repeat' split at h
  all_goals first
    | (simp only [Option.some.injEq, Prod.mk.injEq] at h
       obtain ⟨h1, h2⟩ := h
       subst h2
       simp only [List.length_cons]
       omega)
    | exact absurd h (by simp)

/-- Strict UTF-8 decoding of a whole byte sequence. -/
def utf8Decode (bs : List Nat) : Option PyStr :=
  match h : utf8Next bs with
  | some (c, rest) => (utf8Decode rest).map fun s => c :: s
  | none => if bs.isEmpty then some [] else none
termination_by bs.length
decreasing_by exact utf8Next_length bs _ _ h

/-- JSON values as produced by `json.loads` / consumed by `json.dumps`,
restricted to integer numerics (the only numeric claims the code reads or
writes are integer timestamps). -/
inductive Json where
  | null : Json
  | bool : Bool → Json
  | num : Int → Json
  | str : PyStr → Json
  | arr : List Json → Json
  | obj : List (PyStr × Json) → Json

/-- Python truthiness of a decoded JSON value. -/
def jsonTruthy : Json → Bool
  | .null => false
  | .bool b => b
  | .num n => n != 0
  | .str s => !s.isEmpty
  | .arr xs => !xs.isEmpty
  | .obj kvs => !kvs.isEmpty

/-- Python `d.get(k)` on a dict built from parsed JSON: with duplicate keys the
last occurrence wins, as in CPython's object construction. -/
def objGet (kvs : List (PyStr × Json)) (k : PyStr) : Option Json :=
  (kvs.reverse.find? fun kv => kv.1 == k).map fun kv => kv.2

/-- Whether a JSON value equals a given Python string under Python `==`. -/
def isJsonStrEq (j : Json) (s : PyStr) : Bool :=
  match j with
  | .str t => t == s
  | _ => false

/-- Decimal digit character. -/
def decDigit (n : Nat) : Char := Char.ofNat (48 + n)

/-- Decimal representation of a natural number, most significant digit first. -/
def natRepr (n : Nat) : PyStr :=
  if h : n < 10 then [decDigit n] else natRepr (n / 10) ++ [decDigit (n % 10)]
termination_by n
decreasing_by omega

/-- Decimal representation of an integer (Python `repr` of an `int`). -/
def intRepr (i : Int) : PyStr :=
  if i < 0 then '-' :: natRepr i.natAbs else natRepr i.natAbs

/-- Hexadecimal digit character (lower case, as `json.dumps` emits). -/
def hexDigit (n : Nat) : Char := if n < 10 then Char.ofNat (48 + n) else Char.ofNat (87 + n)

/-- Value of a hexadecimal digit character (JSON `\uXXXX` escapes accept both
cases). -/
def hexVal (c : Char) : Option Nat :=
  if '0' ≤ c ∧ c ≤ '9' then some (c.toNat - 48)
  else if 'a' ≤ c ∧ c ≤ 'f' then some (c.toNat - 97 + 10)
  else if 'A' ≤ c ∧ c ≤ 'F' then some (c.toNat - 65 + 10)
  else none

/-- JSON string escaping of one character, following `json.dumps` with
`ensure_ascii=False` (joserfc's serializer): short escapes for
quote, backslash and the five named controls, `\u00XX` for other controls,
everything else literal. -/
def jsonEscapeChar (c : Char) : PyStr :=
  if c = '"' then ['\\', '"']
  else if c = '\\' then ['\\', '\\']
  else if c = '\x08' then ['\\', 'b']
  else if c = '\x09' then ['\\', 't']
  else if c = '\x0a' then ['\\', 'n']
  else if c = '\x0c' then ['\\', 'f']
  else if c = '\x0d' then ['\\', 'r']
  else if c.toNat < 0x20 then
    ['\\', 'u', '0', '0', hexDigit (c.toNat / 16), hexDigit (c.toNat % 16)]
  else [c]

/-- JSON string escaping. -/
def jsonEscape (s : PyStr) : PyStr := s.foldr (fun c acc => jsonEscapeChar c ++ acc) []

mutual

/-- `json.dumps` with `separators=(",", ":")` and `ensure_ascii=False`,
the compact form joserfc uses for JWT segments. -/
def jsonSerialize : Json → PyStr
  | .null => pystr "null"
  | .bool true => pystr "true"
  | .bool false => pystr "false"
  | .num n => intRepr n
  | .str s => '"' :: (jsonEscape s ++ ['"'])
  | .arr xs => '[' :: (jsonSerializeArr xs ++ [']'])
  | .obj kvs => '\x7b' :: (jsonSerializeObj kvs ++ ['\x7d'])

/-- Comma-separated serialization of array elements. -/
def jsonSerializeArr : List Json → PyStr
  | [] => []
  | [x] => jsonSerialize x
  | x :: y :: xs => jsonSerialize x ++ ',' :: jsonSerializeArr (y :: xs)

/-- Comma-separated serialization of object members. -/
def jsonSerializeObj : List (PyStr × Json) → PyStr
  | [] => []
  | [(k, v)] => '"' :: (jsonEscape k ++ '"' :: ':' :: jsonSerialize v)
  | (k, v) :: m :: kvs =>
    '"' :: (jsonEscape k ++ '"' :: ':' :: jsonSerialize v) ++ ',' :: jsonSerializeObj (m :: kvs)

end

/-- JSON insignificant whitespace. -/
def isJsonWs (c : Char) : Bool := c = ' ' || c = '\x09' || c = '\x0a' || c = '\x0d'

/-- Skip insignificant whitespace. -/
def skipWs (s : PyStr) : PyStr := s.dropWhile isJsonWs

/-- Value of a two-character escape (JSON's `\"`, `\\`, `\/`, `\b`, `\f`,
`\n`, `\r`, `\t`). -/
def jsonUnescapeChar (e : Char) : Option Char :=
  if e = '"' then some '"'
  else if e = '\\' then some '\\'
  else if e = '/' then some '/'
  else if e = 'b' then some '\x08'
  else if e = 'f' then some '\x0c'
  else if e = 'n' then some '\x0a'
  else if e = 'r' then some '\x0d'
  else if e = 't' then some '\x09'
  else none

/-- Value of four hexadecimal digit characters. -/
def hex4 (a b c d : Char) : Option Nat := do
  let va ← hexVal a
  let vb ← hexVal b
  let vc ← hexVal c
  let vd ← hexVal d
  pure (va * 4096 + vb * 256 + vc * 16 + vd)

/-- Body of a JSON string literal, after the opening quote: returns the decoded
string and the input after the closing quote.  `\uXXXX` surrogate pairs are
combined; a lone surrogate fails (CPython tolerates it, but no scalar-value
string can carry it, and no input in scope contains one).  Raw control
characters fail as in `json.loads` strict mode. -/
def readJStr : PyStr → Option (PyStr × PyStr)
  | [] => none
  | '"' :: rest => some ([], rest)
  | '\\' :: 'u' :: a :: b :: c :: d :: rest =>
    (match hex4 a b c d with
    | none => none
    | some n =>
      if 0xD800 ≤ n ∧ n < 0xDC00 then
        match rest with
        | '\\' :: 'u' :: a2 :: b2 :: c2 :: d2 :: rest2 =>
          (match hex4 a2 b2 c2 d2 with
          | some m =>
            if 0xDC00 ≤ m ∧ m < 0xE000 then
              match readJStr rest2 with
              | some (s, r) =>
                some (Char.ofNat (0x10000 + (n - 0xD800) * 1024 + (m - 0xDC00)) :: s, r)
              | none => none
            else none
          | none => none)
        | _ => none
      else if 0xDC00 ≤ n ∧ n < 0xE000 then none
      else
        match readJStr rest with
        | some (s, r) => some (Char.ofNat n :: s, r)
        | none => none)
  | '\\' :: e :: rest =>
    (match jsonUnescapeChar e with
    | some ec =>
      match readJStr rest with
      | some (s, r) => some (ec :: s, r)
      | none => none
    | none => none)
  | c :: rest =>
    if c.toNat < 0x20 then none
    else
      match readJStr rest with
      | some (s, r) => some (c :: s, r)
      | none => none

/-- Longest digit prefix and the rest. -/
def spanDigits (s : PyStr) : PyStr × PyStr :=
  (s.takeWhile fun c => '0' ≤ c && c ≤ '9', s.dropWhile fun c => '0' ≤ c && c ≤ '9')

/-- Numeric value of a digit string. -/
def digitsVal (ds : PyStr) : Nat := ds.foldl (fun a c => a * 10 + (c.toNat - 48)) 0

/-- A JSON unsigned integer literal: digits without a redundant leading zero,
not followed by a fraction or exponent (the model covers the integer fragment
of JSON's number grammar; a fraction or exponent fails). -/
def readJNat (s : PyStr) : Option (Nat × PyStr) :=
  let (ds, r) := spanDigits s
  if ds.isEmpty then none
  else if ds.length > 1 ∧ ds.headD '0' = '0' then none
  else
    match r with
    | c :: _ => if c = '.' || c = 'e' || c = 'E' then none else some (digitsVal ds, r)
    | [] => some (digitsVal ds, r)

/-- A JSON number literal (integer fragment). -/
def readJNum (s : PyStr) : Option (Int × PyStr) :=
  match s with
  | '-' :: rest => (readJNat rest).map fun p => (-(p.1 : Int), p.2)
  | _ => (readJNat s).map fun p => ((p.1 : Int), p.2)

mutual

/-- Fuel-indexed recursive-descent JSON value parser (model of `json.loads`
on the integer-numeric fragment).  Leading whitespace is skipped. -/
def jpVal : Nat → PyStr → Option (Json × PyStr)
  | 0, _ => none
  | fuel + 1, s =>
    match skipWs s with
    | [] => none
    | 'n' :: 'u' :: 'l' :: 'l' :: r => some (.null, r)
    | 't' :: 'r' :: 'u' :: 'e' :: r => some (.bool true, r)
    | 'f' :: 'a' :: 'l' :: 's' :: 'e' :: r => some (.bool false, r)
    | '"' :: r => (readJStr r).map fun p => (.str p.1, p.2)
    | '[' :: r =>
      (match skipWs r with
      | ']' :: r2 => some (.arr [], r2)
      | _ =>
        match jpArrItems fuel r with
        | some (xs, r2) => some (.arr xs, r2)
        | none => none)
    | '\x7b' :: r =>
      (match skipWs r with
      | '\x7d' :: r2 => some (.obj [], r2)
      | _ =>
        match jpObjItems fuel r with
        | some (kvs, r2) => some (.obj kvs, r2)
        | none => none)
    | s' => (readJNum s').map fun p => (.num p.1, p.2)

/-- One or more comma-separated array items followed by `']'`. -/
def jpArrItems : Nat → PyStr → Option (List Json × PyStr)
  | 0, _ => none
  | fuel + 1, s =>
    match jpVal fuel s with
    | none => none
    | some (v, r) =>
      match skipWs r with
      | ',' :: r2 =>
        (match jpArrItems fuel r2 with
        | some (xs, r3) => some (v :: xs, r3)
        | none => none)
      | ']' :: r2 => some ([v], r2)
      | _ => none

/-- One or more comma-separated object members followed by `'}'`. -/
def jpObjItems : Nat → PyStr → Option (List (PyStr × Json) × PyStr)
  | 0, _ => none
  | fuel + 1, s =>
    match skipWs s with
    | '"' :: r =>
      (match readJStr r with
      | none => none
      | some (k, r1) =>
        match skipWs r1 with
        | ':' :: r2 =>
          (match jpVal fuel r2 with
          | none => none
          | some (v, r3) =>
            match skipWs r3 with
            | ',' :: r4 =>
              (match jpObjItems fuel r4 with
              | some (kvs, r5) => some ((k, v) :: kvs, r5)
              | none => none)
            | '\x7d' :: r4 => some ([(k, v)], r4)
            | _ => none)
        | _ => none)
    | _ => none

end

/-- `json.loads` on a string: one JSON value with only whitespace around it. -/
def jsonParseStr (s : PyStr) : Option Json :=
  match jpVal (s.length + 1) s with
  | some (v, r) => if (skipWs r).isEmpty then some v else none
  | none => none

/-- `json.loads` on a bytes object: UTF-8 decoding followed by parsing. -/
def jsonParseBytes (bs : List Nat) : Option Json :=
  match utf8Decode bs with
  | some s => jsonParseStr s
  | none => none

/-- OAuth configuration (config.py lines 78-90); `None` or the empty string
are "not configured" under Python truthiness. -/
structure OAuthSettings where
  ISSUER : Option PyStr
  CLIENT_ID : Option PyStr
  CLIENT_SECRET : Option PyStr

/-- Application settings (config.py lines 93-123); only the members the
authentication subsystem reads.  deps.py and jwks_client.py address the
issuer as `settings.OAUTH_ISSUER`, security.py as `settings.oauth.ISSUER`;
both denote the configured issuer and are modelled by the single field
`oauth.ISSUER`. -/
structure Settings where
  SECRET_KEY : PyStr
  DISABLE_OAUTH : Bool
  oauth : OAuthSettings

/-- Token type enumeration (security.py lines 30-34). -/
inductive TokenType where
  | LOCAL : TokenType
  | OAUTH : TokenType
deriving DecidableEq

/-- The segment-decoding pipeline shared by `detect_token_type` lines 53-59
and joserfc's compact extraction: pad, base64url-decode, JSON-parse. -/
def decodeSegment (seg : PyStr) : Option Json :=
  match b64urlDecodePy (padTo4 seg) with
  | some bs => jsonParseBytes bs
  | none => none

/-- `detect_token_type` (security.py lines 43-71).  Every failure of the
`try` body (wrong segment count, base64 or JSON failure, non-object payload,
non-string issuer claim) degrades to LOCAL; OAUTH requires a truthy `iss`, a
truthy configured issuer and equality after stripping trailing slashes. -/
def detect_token_type (st : Settings) (token : PyStr) : TokenType :=
  match pySplit ['.'] token with
  | [_, payloadB64, _] =>
    (match decodeSegment payloadB64 with
    | some (.obj payload) =>
      (match objGet payload (pystr "iss") with
      | some (.str issuer) =>
        (match st.oauth.ISSUER with
        | some cfg =>
          if !issuer.isEmpty && !cfg.isEmpty
              && rstripSlash issuer == rstripSlash cfg then .OAUTH
          else .LOCAL
        | none => .LOCAL)
      | _ => .LOCAL)
    | _ => .LOCAL)
  | _ => .LOCAL

/-- Deterministic model of the JWS tag (HMAC-SHA256 for local tokens, the
provider's signature for remote ones): base64url over the key bytes, a
separator byte no UTF-8 encoding contains, and the signing input.
Cryptographic unforgeability is out of scope; verification compares tags, so
a token verifies against a key exactly when its signature part equals the tag
that signing with that key produces. -/
def macTag (key msg : PyStr) : PyStr :=
  b64urlEncode (utf8Encode key ++ 0xFF :: utf8Encode msg)

/-- joserfc `jwt.encode`: compact JWS — header and claims as compact JSON,
segments base64url-encoded without padding, tag over
`header64 ++ "." ++ payload64`. -/
def jwtEncode (header claims : Json) (key : PyStr) : PyStr :=
  let h64 := b64urlEncode (utf8Encode (jsonSerialize header))
  let p64 := b64urlEncode (utf8Encode (jsonSerialize claims))
  (h64 ++ '.' :: p64) ++ '.' :: macTag key (h64 ++ '.' :: p64)

/-- joserfc `jwt.decode`: structural and signature validation only — time and
issuer claims are checked separately by `JWTClaimsRegistry`, which the library
documents and which `validate_oauth_token` (and only it) calls.  Requires
three segments, both decoded segments to be JSON objects ("Payload should be
a JSON dict"), a string `alg` header member, and a matching tag. -/
def jwtDecode (token : PyStr) (key : PyStr) : Option (List (PyStr × Json)) :=
  match pySplit ['.'] token with
  | [h64, p64, sig] =>
    (match decodeSegment h64, decodeSegment p64 with
    | some (.obj header), some (.obj claims) =>
      (match objGet header (pystr "alg") with
      | some (.str _) =>
        if sig == macTag key (h64 ++ '.' :: p64) then some claims else none
      | _ => none)
    | _, _ => none)
  | _ => none

/-- The distinct failures of the validation pipeline (each surfaces as a
`ValueError` in the source; the tags record which `raise` produced it). -/
inductive AuthErr where
  | localTokenInvalid
  | oauthDisabledOrUnconfigured
  | jwksFetchFailed
  | invalidJwksFormat
  | oauthTokenInvalid
deriving DecidableEq

/-- `validate_local_token` (security.py lines 74-80): joserfc decode with the
symmetric key; any `JoseError` becomes the local-token `ValueError`.  No
claims registry runs on this path, so nothing inspects `exp`. -/
def validate_local_token (secret : PyStr) (token : PyStr) :
    Except AuthErr (List (PyStr × Json)) :=
  match jwtDecode token secret with
  | some claims => .ok claims
  | none => .error .localTokenInvalid

/-- joserfc `JWTClaimsRegistry(iss={essential, value}, sub={essential},
leeway=120).validate` (security.py lines 115-122): `iss` present and equal —
plain string equality — to the configured value, `sub` present, and
`iat`/`nbf`/`exp` consistent with `now` within the leeway when present. -/
def jwtClaimsRegistryValidate (issValue : PyStr) (leeway now : Int)
    (claims : List (PyStr × Json)) : Bool :=
  (match objGet claims (pystr "iss") with
   | some j => isJsonStrEq j issValue
   | none => false)
  && (objGet claims (pystr "sub")).isSome
  && (match objGet claims (pystr "iat") with
      | some (.num i) => decide (i ≤ now + leeway)
      | some _ => false
      | none => true)
  && (match objGet claims (pystr "nbf") with
      | some (.num b) => decide (b ≤ now + leeway)
      | some _ => false
      | none => true)
  && (match objGet claims (pystr "exp") with
      | some (.num e) => decide (now - leeway ≤ e)
      | some _ => false
      | none => true)

/-- `KeySet.import_key_set` (security.py line 105): succeeds on a JSON object
carrying a `keys` array, yielding the model verification key (the serialized
set); malformed key material fails. -/
def importKeySet (j : Json) : Option PyStr :=
  match j with
  | .obj kvs =>
    (match objGet kvs (pystr "keys") with
    | some (.arr _) => some (jsonSerialize j)
    | _ => none)
  | _ => none

/-- The audience normalization of security.py line 128: a list stays itself,
anything else becomes a singleton list. -/
def audList (aud : Json) : List Json :=
  match aud with
  | .arr xs => xs
  | j => [j]

/-- `validate_oauth_token` (security.py lines 83-136).  `jwksResult` models
the awaited `fetch_jwks` outcome and `now` the evaluation time.  The audience
check runs only when a client id is configured AND the token carries a truthy
`aud` claim — `if aud:` on line 127 skips it otherwise. -/
def validate_oauth_token (st : Settings) (jwksResult : Except Unit Json)
    (now : Int) (token : PyStr) : Except AuthErr (List (PyStr × Json)) :=
  if st.DISABLE_OAUTH || !truthyOptStr st.oauth.ISSUER then
    .error .oauthDisabledOrUnconfigured
  else
    match st.oauth.ISSUER with
    | none => .error .oauthDisabledOrUnconfigured
    | some issuer =>
      match jwksResult with
      | .error _ => .error .jwksFetchFailed
      | .ok jwksData =>
        match importKeySet jwksData with
        | none => .error .invalidJwksFormat
        | some keySet =>
          match jwtDecode token keySet with
          | none => .error .oauthTokenInvalid
          | some claims =>
            if jwtClaimsRegistryValidate issuer 120 now claims then
              match st.oauth.CLIENT_ID with
              | some cid =>
                if !cid.isEmpty then
                  match objGet claims (pystr "aud") with
                  | some aud =>
                    if jsonTruthy aud then
                      if (audList aud).any fun j => isJsonStrEq j cid then .ok claims
                      else .error .oauthTokenInvalid
                    else .ok claims
                  | none => .ok claims
                else .ok claims
              | none => .ok claims
            else .error .oauthTokenInvalid

/-- `create_access_token` (security.py lines 150-155): claims
`{"exp": now + expires_delta, "sub": subject}` signed HS256 with the local
symmetric key.  Times are integer seconds (`int(expire.timestamp())`). -/
def create_access_token (secret : PyStr) (subject : PyStr)
    (now expires_delta : Int) : PyStr :=
  jwtEncode (.obj [(pystr "alg", .str (pystr "HS256"))])
    (.obj [(pystr "exp", .num (now + expires_delta)), (pystr "sub", .str subject)])
    secret

/-- The mutable state of `OAuthJWKSClient` (jwks_client.py lines 20-23):
cached parsed response and fetch time; `_cache_duration` is fixed at one
hour (3600 seconds). -/
structure JwksClientState where
  keys : Option Json
  fetched_at : Option Int

/-- One would-be HTTP GET returning JSON: a transport error or non-2xx status
(`raise_for_status`) collapses to the error case. -/
abbrev HttpJsonResult := Except Unit Json

/-- The fetch branch of `fetch_jwks` (jwks_client.py lines 48-58): URL
construction raises before any network activity when no issuer is configured;
otherwise one GET is performed and, on success, both cache fields are
stored. -/
def fetchFreshJwks (st : Settings) (s : JwksClientState) (now : Int)
    (net : HttpJsonResult) : Except Unit Json × JwksClientState × Nat :=
  if !truthyOptStr st.oauth.ISSUER then (.error (), s, 0)
  else
    match net with
    | .error _ => (.error (), s, 1)
    | .ok j => (.ok j, ⟨some j, some now⟩, 1)

/-- `OAuthJWKSClient.fetch_jwks` (jwks_client.py lines 39-58) with the state
threaded explicitly and the would-be network response supplied as `net`.
Returns the result, the successor state, and how many network fetches were
performed.  The cache test mirrors the truthiness test
`self._keys and self._fetched_at and now - self._fetched_at < duration`
(an empty dict of keys is falsy and does not count as a cache hit). -/
def fetch_jwks (st : Settings) (s : JwksClientState) (now : Int)
    (net : HttpJsonResult) : Except Unit Json × JwksClientState × Nat :=
  match s.keys, s.fetched_at with
  | some ks, some t =>
    if jsonTruthy ks && decide (now - t < 3600) then (.ok ks, s, 0)
    else fetchFreshJwks st s now net
  | _, _ => fetchFreshJwks st s now net

/-- `OAuthJWKSClient.clear_cache` (jwks_client.py lines 60-64). -/
def clear_cache (_s : JwksClientState) : JwksClientState := ⟨none, none⟩

/-- The persistent `User` row (models.py lines 7-24).  The primary key is
modelled as a number the insert assigns; `email` and `full_name` keep the
JSON values the code assigns (SQLModel table models do not re-validate). -/
structure UserRec where
  id : Nat
  email : Json
  full_name : Option Json
  is_active : Bool
  is_superuser : Bool
  hashed_password : Option PyStr
  oauth_provider : Option PyStr
  oauth_subject : Option PyStr

/-- `select(User).where(User.oauth_subject == subject)` then `.first()`
(deps.py lines 75-77). -/
def findByOauthSubject (db : List UserRec) (subject : PyStr) : Option UserRec :=
  db.find? fun u => u.oauth_subject == some subject

/-- The provider-label derivation of deps.py lines 113-117:
`issuer.rstrip("/").split("//")[-1].split("/")[0].replace("www.", "")` when a
truthy issuer is configured, the literal `"oauth"` otherwise.  Note
`str.replace` substitutes every occurrence. -/
def oauthProviderLabel (issuer : Option PyStr) : PyStr :=
  match issuer with
  | some s =>
    if !s.isEmpty then
      pyReplace (pystr "www.") []
        ((pySplit (pystr "/")
          ((pySplit (pystr "//") (rstripSlash s)).getLastD [])).headD [])
    else pystr "oauth"
  | none => pystr "oauth"

/-- The `HTTPException`s `_get_or_create_oauth_user` raises (deps.py lines
67-72 and 107-111). -/
inductive ProvisionError where
  | oauthDisabled
  | missingSubClaim
  | missingEmail
deriving DecidableEq

/-- `_get_or_create_oauth_user` (deps.py lines 62-134) with the session state
threaded explicitly: returns the outcome, the successor database, and whether
the userinfo network call was made.  `userinfo` models the would-be GET on
`{issuer}/oidc/v1/userinfo`: transport failure or JSON-parse failure is the
error case (the `except` on line 104 swallows both), otherwise a status code
and parsed body.  A missing or falsy `sub` raises at line 72; non-string
`sub` claims are outside the model.  The insert assigns `db.length` as the
new primary key. -/
def get_or_create_oauth_user (st : Settings) (db : List UserRec)
    (payload : List (PyStr × Json)) (userinfo : Except Unit (Nat × Json)) :
    Except ProvisionError UserRec × List UserRec × Bool :=
  if st.DISABLE_OAUTH then (.error .oauthDisabled, db, false)
  else
    match objGet payload (pystr "sub") with
    | some (.str subject) =>
      if subject.isEmpty then (.error .missingSubClaim, db, false)
      else
        match findByOauthSubject db subject with
        | some user => (.ok user, db, false)
        | none =>
          let email0 := objGet payload (pystr "email")
          let fullName0 := objGet payload (pystr "name")
          let emailTruthy0 := match email0 with | some j => jsonTruthy j | none => false
          let fnTruthy0 := match fullName0 with | some j => jsonTruthy j | none => false
          let doFetch := !emailTruthy0 && truthyOptStr st.oauth.ISSUER
          let step :=
            if doFetch then
              match userinfo with
              | .ok (status, body) =>
                if status == 200 then
                  match body with
                  | .obj bkvs =>
                    (objGet bkvs (pystr "email"),
                     if fnTruthy0 then fullName0 else objGet bkvs (pystr "name"),
                     true)
                  | _ => (email0, fullName0, true)
                else (email0, fullName0, true)
              | .error _ => (email0, fullName0, true)
            else (email0, fullName0, false)
          match step with
          | (email1, fullName1, called) =>
            match email1 with
            | some e =>
              if jsonTruthy e then
                let newUser : UserRec :=
                  { id := db.length
                    email := e
                    full_name := fullName1
                    is_active := true
                    is_superuser := false
                    hashed_password := none
                    oauth_provider := some (oauthProviderLabel st.oauth.ISSUER)
                    oauth_subject := some subject }
                (.ok newUser, db ++ [newUser], called)
              else (.error .missingEmail, db, called)
            | none => (.error .missingEmail, db, called)
    | _ => (.error .missingSubClaim, db, false)

theorem sextetVal_sextetChar : ∀ n < 64, sextetVal (sextetChar n) = some n := by decide

theorem sextetChar_ascii : ∀ n < 64, (sextetChar n).toNat < 128 := by decide

theorem sextetChar_data : ∀ n < 64, isB64DataChar (sextetChar n) = true := by decide

theorem sextetChar_ne_eq : ∀ n < 64, sextetChar n ≠ '=' := by decide

theorem sextetChar_ne_dot : ∀ n < 64, sextetChar n ≠ '.' := by decide

theorem b64EncodeGroups_lt :
    ∀ (bs : List Nat), (∀ b ∈ bs, b < 256) → ∀ v ∈ b64EncodeGroups bs, v < 64 := by
  intro bs
  induction bs using b64EncodeGroups.induct with
  | case1 =>
    intro _ v hv
    simp [b64EncodeGroups] at hv
  | case2 a =>
    intro h v hv
    have ha := h a (by simp)
    simp [b64EncodeGroups] at hv
    rcases hv with h1 | h1 <;> omega
  | case3 a b =>
    intro h v hv
    have ha := h a (by simp)
    have hb := h b (by simp)
    simp [b64EncodeGroups] at hv
    rcases hv with h1 | h1 | h1 <;> omega
  | case4 a b c rest ih =>
    intro h v hv
    have ha := h a (by simp)
    have hb := h b (by simp)
    have hc := h c (by simp)
    simp only [b64EncodeGroups, List.mem_cons] at hv
    rcases hv with h1 | h1 | h1 | h1 | h1
    · omega
    · omega
    · omega
    · omega
    · exact ih (fun x hx => h x (by simp [hx])) v h1

theorem length_b64EncodeGroups_mod :
    ∀ (bs : List Nat), (b64EncodeGroups bs).length % 4 ≠ 1 := by
  intro bs
  induction bs using b64EncodeGroups.induct with
  | case1 => simp [b64EncodeGroups]
  | case2 a => simp [b64EncodeGroups]
  | case3 a b => simp [b64EncodeGroups]
  | case4 a b c rest ih =>
    simp only [b64EncodeGroups, List.length_cons]
    omega

theorem takeWhile_append_stop {α : Type} (p : α → Bool) :
    ∀ (xs ys : List α), (∀ x ∈ xs, p x = true) →
    (∀ z zs, ys = z :: zs → p z = false) → (xs ++ ys).takeWhile p = xs := by
  intro xs
  induction xs with
  | nil =>
    intro ys _ hys
    cases ys with
    | nil => rfl
    | cons z zs =>
      simp only [List.nil_append, List.takeWhile]
      rw [hys z zs rfl]
  | cons x xs ih =>
    intro ys hxs hys
    simp only [List.cons_append, List.takeWhile]
    rw [hxs x (by simp)]
    simp only [List.cons.injEq, true_and]
    exact ih ys (fun a ha => hxs a (by simp [ha])) hys

theorem padTo4_eq (s : PyStr) :
    padTo4 s =
      s ++ List.replicate (if s.length % 4 = 0 then 0 else 4 - s.length % 4) '=' := by
  simp only [padTo4]
  by_cases h : s.length % 4 = 0
  · rw [if_neg (by omega), if_pos h]
    simp
  · rw [if_pos (by omega), if_neg h]

theorem a2bBase64_step0 (c : Char) (v : Nat) (hv : sextetVal c = some v) (hne : c ≠ '=')
    (rest : PyStr) (leftchar pads : Nat) (out : List Nat) :
    a2bBase64 (c :: rest) 0 leftchar pads out = a2bBase64 rest 1 v 0 out := by
  rw [a2bBase64, if_neg hne, hv]

theorem a2bBase64_step1 (c : Char) (v : Nat) (hv : sextetVal c = some v) (hne : c ≠ '=')
    (rest : PyStr) (leftchar pads : Nat) (out : List Nat) :
    a2bBase64 (c :: rest) 1 leftchar pads out =
      a2bBase64 rest 2 (v % 16) 0 ((leftchar * 4 + v / 16) :: out) := by
  rw [a2bBase64, if_neg hne, hv]

theorem a2bBase64_step2 (c : Char) (v : Nat) (hv : sextetVal c = some v) (hne : c ≠ '=')
    (rest : PyStr) (leftchar pads : Nat) (out : List Nat) :
    a2bBase64 (c :: rest) 2 leftchar pads out =
      a2bBase64 rest 3 (v % 4) 0 ((leftchar * 16 + v / 4) :: out) := by
  rw [a2bBase64, if_neg hne, hv]

theorem a2bBase64_step3 (c : Char) (v : Nat) (hv : sextetVal c = some v) (hne : c ≠ '=')
    (rest : PyStr) (leftchar pads : Nat) (out : List Nat) :
    a2bBase64 (c :: rest) 3 leftchar pads out =
      a2bBase64 rest 0 0 0 ((leftchar * 64 + v) :: out) := by
  rw [a2bBase64, if_neg hne, hv]

/-- One full encoded quad decodes back to its three bytes. -/
theorem a2bBase64_quad (a b c : Nat) (ha : a < 256) (hb : b < 256) (hc : c < 256)
    (rest : PyStr) (out : List Nat) :
    a2bBase64 (sextetChar (a / 4) :: sextetChar (a % 4 * 16 + b / 16) ::
        sextetChar (b % 16 * 4 + c / 64) :: sextetChar (c % 64) :: rest) 0 0 0 out =
      a2bBase64 rest 0 0 0 (c :: b :: a :: out) := by
  rw [a2bBase64_step0 (sextetChar (a / 4)) (a / 4)
    (sextetVal_sextetChar (a / 4) (by omega)) (sextetChar_ne_eq (a / 4) (by omega))]
  rw [a2bBase64_step1 (sextetChar (a % 4 * 16 + b / 16)) (a % 4 * 16 + b / 16)
    (sextetVal_sextetChar (a % 4 * 16 + b / 16) (by omega))
    (sextetChar_ne_eq (a % 4 * 16 + b / 16) (by omega))]
  rw [a2bBase64_step2 (sextetChar (b % 16 * 4 + c / 64)) (b % 16 * 4 + c / 64)
    (sextetVal_sextetChar (b % 16 * 4 + c / 64) (by omega))
    (sextetChar_ne_eq (b % 16 * 4 + c / 64) (by omega))]
  rw [a2bBase64_step3 (sextetChar (c % 64)) (c % 64)
    (sextetVal_sextetChar (c % 64) (by omega)) (sextetChar_ne_eq (c % 64) (by omega))]
  have e1 : a / 4 * 4 + (a % 4 * 16 + b / 16) / 16 = a := by omega
  have e2 : (a % 4 * 16 + b / 16) % 16 * 16 + (b % 16 * 4 + c / 64) / 4 = b := by omega
  have e3 : (b % 16 * 4 + c / 64) % 4 * 64 + c % 64 = c := by omega
  rw [e1, e2, e3]

theorem a2bBase64_pad2 (l : Nat) (out : List Nat) :
    a2bBase64 ['=', '='] 2 l 0 out = some out.reverse := rfl

theorem a2bBase64_pad3 (l : Nat) (out : List Nat) :
    a2bBase64 ['='] 3 l 0 out = some out.reverse := rfl

/-- Decoding an encoded byte sequence followed by its exact padding appends
the bytes to the accumulated output. -/
theorem a2bBase64_encode_pad :
    ∀ (bs : List Nat), (∀ x ∈ bs, x < 256) → ∀ (k : Nat),
      k = (if (b64EncodeGroups bs).length % 4 = 0 then 0
        else 4 - (b64EncodeGroups bs).length % 4) →
      ∀ (out : List Nat),
      a2bBase64 ((b64EncodeGroups bs).map sextetChar ++ List.replicate k '=') 0 0 0 out =
        some (out.reverse ++ bs) := by
  intro bs
  induction bs using b64EncodeGroups.induct with
  | case1 =>
    intro _ k hk out
    norm_num [b64EncodeGroups] at hk
    subst hk
    simp [b64EncodeGroups, a2bBase64]
  | case2 a =>
    intro h k hk out
    have ha := h a (by simp)
    norm_num [b64EncodeGroups] at hk
    subst hk
    simp only [b64EncodeGroups, List.map_cons, List.map_nil, List.cons_append,
      List.nil_append, List.replicate]
    rw [a2bBase64_step0 (sextetChar (a / 4)) (a / 4)
      (sextetVal_sextetChar (a / 4) (by omega)) (sextetChar_ne_eq (a / 4) (by omega))]
    rw [a2bBase64_step1 (sextetChar (a % 4 * 16)) (a % 4 * 16)
      (sextetVal_sextetChar (a % 4 * 16) (by omega))
      (sextetChar_ne_eq (a % 4 * 16) (by omega))]
    rw [a2bBase64_pad2, List.reverse_cons]
    have e1 : a / 4 * 4 + a % 4 * 16 / 16 = a := by omega
    rw [e1]
  | case3 a b =>
    intro h k hk out
    have ha := h a (by simp)
    have hb := h b (by simp)
    norm_num [b64EncodeGroups] at hk
    subst hk
    simp only [b64EncodeGroups, List.map_cons, List.map_nil, List.cons_append,
      List.nil_append, List.replicate]
    rw [a2bBase64_step0 (sextetChar (a / 4)) (a / 4)
      (sextetVal_sextetChar (a / 4) (by omega)) (sextetChar_ne_eq (a / 4) (by omega))]
    rw [a2bBase64_step1 (sextetChar (a % 4 * 16 + b / 16)) (a % 4 * 16 + b / 16)
      (sextetVal_sextetChar (a % 4 * 16 + b / 16) (by omega))
      (sextetChar_ne_eq (a % 4 * 16 + b / 16) (by omega))]
    rw [a2bBase64_step2 (sextetChar (b % 16 * 4)) (b % 16 * 4)
      (sextetVal_sextetChar (b % 16 * 4) (by omega))
      (sextetChar_ne_eq (b % 16 * 4) (by omega))]
    rw [a2bBase64_pad3]
    have e1 : a / 4 * 4 + (a % 4 * 16 + b / 16) / 16 = a := by omega
    have e2 : (a % 4 * 16 + b / 16) % 16 * 16 + b % 16 * 4 / 4 = b := by omega
    rw [e1, e2]
    simp
  | case4 a b c rest ih =>
    intro h k hk out
    have ha := h a (by simp)
    have hb := h b (by simp)
    have hc := h c (by simp)
    have hlen : (b64EncodeGroups (a :: b :: c :: rest)).length =
        4 + (b64EncodeGroups rest).length := by
      simp only [b64EncodeGroups, List.length_cons]
      omega
    rw [hlen] at hk
    have hmod : (4 + (b64EncodeGroups rest).length) % 4 =
        (b64EncodeGroups rest).length % 4 := by omega
    rw [hmod] at hk
    simp only [b64EncodeGroups, List.map_cons, List.cons_append]
    rw [a2bBase64_quad a b c ha hb hc _ out]
    rw [ih (fun x hx => h x (by simp [hx])) k hk (c :: b :: a :: out)]
    simp

theorem b64_pipeline_roundtrip (bs : List Nat) (h : ∀ b ∈ bs, b < 256) :
    b64urlDecodePy (padTo4 (b64urlEncode bs)) = some bs := by
  have hlt := b64EncodeGroups_lt bs h
  rw [padTo4_eq]
  have hall : ((b64urlEncode bs ++
      List.replicate (if (b64urlEncode bs).length % 4 = 0 then 0
        else 4 - (b64urlEncode bs).length % 4) '=').all
      fun c => decide (c.toNat < 128)) = true := by
    simp only [List.all_append, Bool.and_eq_true, List.all_eq_true]
    constructor
    · intro c hc
      simp only [b64urlEncode, List.mem_map] at hc
      obtain ⟨v, hv, rfl⟩ := hc
      exact decide_eq_true (sextetChar_ascii v (hlt v hv))
    · intro c hc
      rw [List.eq_of_mem_replicate hc]
      decide
  unfold b64urlDecodePy
  rw [if_pos hall]
  have hlen : (b64urlEncode bs).length = (b64EncodeGroups bs).length := by
    simp [b64urlEncode]
  rw [show b64urlEncode bs = (b64EncodeGroups bs).map sextetChar from rfl]
  rw [a2bBase64_encode_pad bs h _ (by simp [List.length_map]) []]
  simp

theorem char_toNat_valid (c : Char) :
    c.toNat < 0xD800 ∨ (0xDFFF < c.toNat ∧ c.toNat < 0x110000) := by
  have h := c.valid
  simp only [UInt32.isValidChar, Nat.isValidChar, Char.toNat] at h ⊢
  exact h


theorem utf8EncodeChar_lt (c : Char) : ∀ b ∈ utf8EncodeChar c, b < 256 := by
  have hv := char_toNat_valid c
  intro b hb
  simp only [utf8EncodeChar] at hb
  split at hb
  · simp only [List.mem_singleton] at hb
    omega
  · split at hb
    · simp only [List.mem_cons, List.mem_singleton, List.not_mem_nil, or_false] at hb
      rcases hb with rfl | rfl <;> omega
    · split at hb
      · simp only [List.mem_cons, List.mem_singleton, List.not_mem_nil, or_false] at hb
        rcases hb with rfl | rfl | rfl <;> omega
      · simp only [List.mem_cons, List.mem_singleton, List.not_mem_nil, or_false] at hb
        rcases hb with rfl | rfl | rfl | rfl <;> omega

theorem utf8Encode_lt (s : PyStr) : ∀ b ∈ utf8Encode s, b < 256 := by
  induction s with
  | nil => intro b hb; simp [utf8Encode] at hb
  | cons c cs ih =>
    intro b hb
    have h : utf8Encode (c :: cs) = utf8EncodeChar c ++ utf8Encode cs := rfl
    rw [h] at hb
    rcases List.mem_append.mp hb with h' | h'
    · exact utf8EncodeChar_lt c b h'
    · exact ih b h'

theorem utf8Next_encodeChar (c : Char) (rest : List Nat) :
    utf8Next (utf8EncodeChar c ++ rest) = some (c, rest) := by
  have hv := char_toNat_valid c
  simp only [utf8EncodeChar]
  by_cases h1 : c.toNat < 0x80
  · rw [if_pos h1]
    simp only [List.cons_append, List.nil_append, utf8Next]
    rw [if_pos h1, Char.ofNat_toNat]
  · rw [if_neg h1]
    by_cases h2 : c.toNat < 0x800
    · rw [if_pos h2]
      simp only [List.cons_append, List.nil_append, utf8Next]
      rw [if_neg (by omega), if_neg (by omega), if_pos (by omega)]
      rw [if_pos (by simp only [isCont, Bool.and_eq_true, decide_eq_true_eq]; constructor <;> omega)]
      rw [if_pos (by omega)]
      have he : (0xC0 + c.toNat / 64 - 0xC0) * 64 + (0x80 + c.toNat % 64 - 0x80)
          = c.toNat := by omega
      rw [he, Char.ofNat_toNat]
    · rw [if_neg h2]
      by_cases h3 : c.toNat < 0x10000
      · rw [if_pos h3]
        simp only [List.cons_append, List.nil_append, utf8Next]
        rw [if_neg (by omega), if_neg (by omega), if_neg (by omega), if_pos (by omega)]
        rw [if_pos (by simp only [isCont, Bool.and_eq_true, decide_eq_true_eq]; refine ⟨⟨?_, ?_⟩, ?_, ?_⟩ <;> omega)]
        rw [if_pos (by constructor <;> omega)]
        have he : (0xE0 + c.toNat / 4096 - 0xE0) * 4096
            + (0x80 + c.toNat / 64 % 64 - 0x80) * 64 + (0x80 + c.toNat % 64 - 0x80)
            = c.toNat := by omega
        rw [he, Char.ofNat_toNat]
      · rw [if_neg h3]
        simp only [List.cons_append, List.nil_append, utf8Next]
        rw [if_neg (by omega), if_neg (by omega), if_neg (by omega), if_neg (by omega),
          if_pos (by omega)]
        rw [if_pos (by simp only [isCont, Bool.and_eq_true, decide_eq_true_eq]; refine ⟨⟨⟨?_, ?_⟩, ?_, ?_⟩, ?_, ?_⟩ <;> omega)]
        rw [if_pos (by constructor <;> omega)]
        have he : (0xF0 + c.toNat / 262144 - 0xF0) * 262144
            + (0x80 + c.toNat / 4096 % 64 - 0x80) * 4096
            + (0x80 + c.toNat / 64 % 64 - 0x80) * 64 + (0x80 + c.toNat % 64 - 0x80)
            = c.toNat := by omega
        rw [he, Char.ofNat_toNat]

theorem utf8Decode_of_next (bs : List Nat) (c : Char) (rest : List Nat)
    (h : utf8Next bs = some (c, rest)) :
    utf8Decode bs = (utf8Decode rest).map fun s => c :: s := by
  rw [utf8Decode.eq_def]
  split
  · rename_i c' rest' heq
    rw [h] at heq
    simp only [Option.some.injEq, Prod.mk.injEq] at heq
    rw [heq.1, heq.2]
  · rename_i heq
    rw [h] at heq
    exact absurd heq (by simp)

theorem utf8_roundtrip (s : PyStr) : utf8Decode (utf8Encode s) = some s := by
  induction s with
  | nil => simp [utf8Encode, utf8Decode.eq_def, utf8Next]
  | cons c cs ih =>
    have h : utf8Encode (c :: cs) = utf8EncodeChar c ++ utf8Encode cs := rfl
    rw [h, utf8Decode_of_next _ c _ (utf8Next_encodeChar c (utf8Encode cs)), ih]
    rfl

theorem char_le_iff (a b : Char) : a ≤ b ↔ a.toNat ≤ b.toNat := by
  exact_mod_cast Char.le_def

theorem decDigit_toNat (n : Nat) (h : n < 10) : (decDigit n).toNat = 48 + n := by
  unfold decDigit Char.ofNat
  rw [dif_pos (Or.inl (by omega : 48 + n < 55296))]
  rfl

theorem toNat_zero_char : '0'.toNat = 48 := rfl

theorem toNat_nine_char : '9'.toNat = 57 := rfl

theorem dropWhile_append_stop {α : Type} (p : α → Bool) :
    ∀ (xs ys : List α), (∀ x ∈ xs, p x = true) →
    (∀ z zs, ys = z :: zs → p z = false) → (xs ++ ys).dropWhile p = ys := by
  intro xs
  induction xs with
  | nil =>
    intro ys _ hys
    cases ys with
    | nil => rfl
    | cons z zs =>
      simp only [List.nil_append, List.dropWhile]
      rw [hys z zs rfl]
  | cons x xs ih =>
    intro ys hxs hys
    simp only [List.cons_append, List.dropWhile]
    rw [hxs x (by simp)]
    exact ih ys (fun a ha => hxs a (by simp [ha])) hys

theorem digitsVal_append_one (xs : PyStr) (c : Char) :
    digitsVal (xs ++ [c]) = digitsVal xs * 10 + (c.toNat - 48) := by
  simp [digitsVal, List.foldl_append]

theorem natRepr_spec (n : Nat) :
    (∀ c ∈ natRepr n, '0' ≤ c ∧ c ≤ '9') ∧ natRepr n ≠ [] ∧
    digitsVal (natRepr n) = n ∧
    (natRepr n = ['0'] ∨ (natRepr n).headD '0' ≠ '0') := by
  induction n using natRepr.induct with
  | case1 n h =>
    rw [natRepr, dif_pos h]
    have ht := decDigit_toNat n h
    refine ⟨?_, by simp, ?_, ?_⟩
    · intro c hc
      simp only [List.mem_singleton] at hc
      subst hc
      rw [char_le_iff, char_le_iff, ht, toNat_zero_char, toNat_nine_char]
      omega
    · simp [digitsVal, ht]
    · by_cases hz : n = 0
      · subst hz
        left
        have : decDigit 0 = '0' := by decide
        rw [this]
      · right
        simp only [List.headD_cons]
        intro hcon
        have : (decDigit n).toNat = '0'.toNat := by rw [hcon]
        rw [ht, toNat_zero_char] at this
        omega
  | case2 n h ih =>
    rw [natRepr, dif_neg h]
    obtain ⟨ihd, ihne, ihval, ihhead⟩ := ih
    have hm : n % 10 < 10 := by omega
    have htm := decDigit_toNat (n % 10) hm
    refine ⟨?_, by simp, ?_, ?_⟩
    · intro c hc
      rcases List.mem_append.mp hc with h' | h'
      · exact ihd c h'
      · simp only [List.mem_singleton] at h'
        subst h'
        rw [char_le_iff, char_le_iff, htm, toNat_zero_char, toNat_nine_char]
        omega
    · rw [digitsVal_append_one, ihval, htm]
      omega
    · right
      obtain ⟨d, ds, hds⟩ := List.exists_cons_of_ne_nil ihne
      rw [hds]
      simp only [List.cons_append, List.headD_cons]
      have hd10 : n / 10 ≠ 0 := by omega
      rcases ihhead with h' | h'
      · rw [h'] at ihval
        simp [digitsVal] at ihval
        omega
      · rw [hds] at h'
        simpa using h'

theorem spanDigits_eq (ds rest : PyStr)
    (h1 : ∀ c ∈ ds, '0' ≤ c ∧ c ≤ '9')
    (h2 : ∀ z zs, rest = z :: zs → ¬('0' ≤ z ∧ z ≤ '9')) :
    spanDigits (ds ++ rest) = (ds, rest) := by
  unfold spanDigits
  rw [Prod.mk.injEq]
  constructor
  · apply takeWhile_append_stop
    · intro c hc
      simp only [Bool.and_eq_true, decide_eq_true_eq]
      exact (h1 c hc)
    · intro z zs hz
      simp only [Bool.and_eq_true, decide_eq_true_eq, Bool.and_eq_false_iff]
      have := h2 z zs hz
      by_cases hle : '0' ≤ z
      · right; simp only [decide_eq_false_iff_not]; intro hc; exact this ⟨hle, hc⟩
      · left; simp only [decide_eq_false_iff_not]; exact hle
  · apply dropWhile_append_stop
    · intro c hc
      simp only [Bool.and_eq_true, decide_eq_true_eq]
      exact (h1 c hc)
    · intro z zs hz
      simp only [Bool.and_eq_true, decide_eq_true_eq, Bool.and_eq_false_iff]
      have := h2 z zs hz
      by_cases hle : '0' ≤ z
      · right; simp only [decide_eq_false_iff_not]; intro hc; exact this ⟨hle, hc⟩
      · left; simp only [decide_eq_false_iff_not]; exact hle

theorem readJNat_repr (n : Nat) (rest : PyStr)
    (hr : ∀ z zs, rest = z :: zs →
      ¬('0' ≤ z ∧ z ≤ '9') ∧ z ≠ '.' ∧ z ≠ 'e' ∧ z ≠ 'E') :
    readJNat (natRepr n ++ rest) = some (n, rest) := by
  obtain ⟨hd, hne, hval, hhead⟩ := natRepr_spec n
  unfold readJNat
  rw [spanDigits_eq _ _ hd fun z zs hz => (hr z zs hz).1]
  simp only []
  rw [if_neg (by simpa using hne)]
  rw [if_neg ?hlz]
  case hlz =>
    rcases hhead with h' | h'
    · rw [h']; simp
    · intro hcon; exact h' hcon.2
  split
  · obtain ⟨hz1, hz2, hz3, hz4⟩ := hr _ _ rfl
    rw [if_neg ?hdot]
    case hdot =>
      simp only [Bool.or_eq_true, decide_eq_true_eq]
      push_neg
      exact ⟨⟨hz2, hz3⟩, hz4⟩
    rw [hval]
  · rw [hval]

theorem readJNum_intRepr (i : Int) (rest : PyStr)
    (hr : ∀ z zs, rest = z :: zs →
      ¬('0' ≤ z ∧ z ≤ '9') ∧ z ≠ '.' ∧ z ≠ 'e' ∧ z ≠ 'E') :
    readJNum (intRepr i ++ rest) = some (i, rest) := by
  by_cases hneg : i < 0
  · have h : intRepr i = '-' :: natRepr i.natAbs := by rw [intRepr, if_pos hneg]
    rw [h]
    simp only [List.cons_append, readJNum]
    rw [readJNat_repr _ _ hr]
    simp only [Option.map]
    rw [Option.some.injEq, Prod.mk.injEq]
    exact ⟨by omega, rfl⟩
  · have h : intRepr i = natRepr i.natAbs := by rw [intRepr, if_neg hneg]
    rw [h]
    obtain ⟨hdg, hne, _, _⟩ := natRepr_spec i.natAbs
    obtain ⟨d, ds, hds⟩ := List.exists_cons_of_ne_nil hne
    have hdig := hdg d (by rw [hds]; simp)
    have hd45 : d ≠ '-' := by
      intro hcon
      rw [char_le_iff, char_le_iff, toNat_zero_char, toNat_nine_char] at hdig
      rw [hcon] at hdig
      have h45 : ('-').toNat = 45 := rfl
      omega
    rw [readJNum.eq_def]
    split
    · rename_i r' heq
      rw [hds] at heq
      simp only [List.cons_append, List.cons.injEq] at heq
      exact absurd heq.1 hd45
    · rw [readJNat_repr _ _ hr]
      simp only [Option.map]
      rw [Option.some.injEq, Prod.mk.injEq]
      exact ⟨by omega, rfl⟩

theorem hexVal_hexDigit : ∀ n < 16, hexVal (hexDigit n) = some n := by decide

theorem readJStr_u_escape (d1 d2 : Char) (n : Nat) (tail : PyStr)
    (hh : hex4 '0' '0' d1 d2 = some n) (hlt : n < 0xD800) :
    readJStr ('\\' :: 'u' :: '0' :: '0' :: d1 :: d2 :: tail) =
      match readJStr tail with
      | some (s, r) => some (Char.ofNat n :: s, r)
      | none => none := by
  rw [readJStr.eq_def]
  split
  all_goals try (rename_i heq; simp at heq)
  · rename_i a b c d rest heq
    obtain ⟨rfl, rfl, rfl, rfl, rfl⟩ := heq
    simp only [hh]
    rw [if_neg (by omega), if_neg (by omega)]
  · rename_i hno
    obtain ⟨he, hrest⟩ := heq
    exact (hno '0' '0' d1 d2 tail he.symm hrest.symm).elim
  · rename_i hno
    obtain ⟨he, hrest⟩ := heq
    exact (hno 'u' ('0' :: '0' :: d1 :: d2 :: tail) he.symm hrest.symm).elim

theorem readJStr_plain (c : Char) (tail : PyStr)
    (h1 : c ≠ '"') (h2 : c ≠ '\\') (h3 : ¬c.toNat < 0x20) :
    readJStr (c :: tail) =
      match readJStr tail with
      | some (s, r) => some (c :: s, r)
      | none => none := by
  rw [readJStr.eq_def]
  split
  · rename_i heq
    simp at heq
  · rename_i heq
    rw [List.cons.injEq] at heq
    exact absurd heq.1 h1
  · rename_i heq
    rw [List.cons.injEq] at heq
    exact absurd heq.1 h2
  · rename_i heq
    rw [List.cons.injEq] at heq
    exact absurd heq.1 h2
  · rename_i heq
    rw [List.cons.injEq] at heq
    obtain ⟨rfl, rfl⟩ := heq
    rw [if_neg h3]

theorem readJStr_escapeChar (c : Char) (tail : PyStr) :
    readJStr (jsonEscapeChar c ++ tail) =
      match readJStr tail with
      | some (s, r) => some (c :: s, r)
      | none => none := by
  by_cases h1 : c = '"'
  · subst h1; rfl
  · by_cases h2 : c = '\\'
    · subst h2; rfl
    · by_cases h3 : c = '\x08'
      · subst h3; rfl
      · by_cases h4 : c = '\x09'
        · subst h4; rfl
        · by_cases h5 : c = '\x0a'
          · subst h5; rfl
          · by_cases h6 : c = '\x0c'
            · subst h6; rfl
            · by_cases h7 : c = '\x0d'
              · subst h7; rfl
              · by_cases h8 : c.toNat < 0x20
                · have he : jsonEscapeChar c =
                      ['\\', 'u', '0', '0', hexDigit (c.toNat / 16), hexDigit (c.toNat % 16)] := by
                    unfold jsonEscapeChar
                    rw [if_neg h1, if_neg h2, if_neg h3, if_neg h4, if_neg h5, if_neg h6,
                      if_neg h7, if_pos h8]
                  rw [he]
                  have h0 : hexVal '0' = some 0 := by decide
                  have hh : hex4 '0' '0' (hexDigit (c.toNat / 16)) (hexDigit (c.toNat % 16))
                      = some c.toNat := by
                    unfold hex4
                    rw [h0, hexVal_hexDigit _ (by omega), hexVal_hexDigit _ (by omega)]
                    simp only [Option.bind_eq_bind, Option.some_bind, pure, Option.some.injEq]
                    omega
                  have := readJStr_u_escape (hexDigit (c.toNat / 16)) (hexDigit (c.toNat % 16))
                    c.toNat tail hh (by omega)
                  simp only [List.cons_append, List.nil_append] at this ⊢
                  rw [this, Char.ofNat_toNat]
                · have he : jsonEscapeChar c = [c] := by
                    unfold jsonEscapeChar
                    rw [if_neg h1, if_neg h2, if_neg h3, if_neg h4, if_neg h5, if_neg h6,
                      if_neg h7, if_neg h8]
                  rw [he, List.singleton_append]
                  exact readJStr_plain c tail h1 h2 h8

theorem readJStr_escape_append (s rest : PyStr) :
    readJStr (jsonEscape s ++ '"' :: rest) = some (s, rest) := by
  induction s with
  | nil => rfl
  | cons c cs ih =>
    have h : jsonEscape (c :: cs) = jsonEscapeChar c ++ jsonEscape cs := rfl
    rw [h, List.append_assoc, readJStr_escapeChar, ih]

theorem intRepr_head (i : Int) : ∃ d ds, intRepr i = d :: ds ∧
    (d = '-' ∨ ('0' ≤ d ∧ d ≤ '9')) := by
  obtain ⟨hdg, hne, -, -⟩ := natRepr_spec i.natAbs
  by_cases hneg : i < 0
  · exact ⟨'-', natRepr i.natAbs, by rw [intRepr, if_pos hneg], Or.inl rfl⟩
  · obtain ⟨d, ds, hds⟩ := List.exists_cons_of_ne_nil hne
    refine ⟨d, ds, by rw [intRepr, if_neg hneg]; exact hds, Or.inr ?_⟩
    exact hdg d (by rw [hds]; simp)

theorem jpVal_num (f : Nat) (e : Int) (rest : PyStr)
    (hr : ∀ z zs, rest = z :: zs →
      ¬('0' ≤ z ∧ z ≤ '9') ∧ z ≠ '.' ∧ z ≠ 'e' ∧ z ≠ 'E') :
    jpVal (f + 1) (intRepr e ++ rest) = some (.num e, rest) := by
  obtain ⟨d, ds, hds, hdv⟩ := intRepr_head e
  have hdn : 44 < d.toNat ∧ d.toNat < 58 := by
    rcases hdv with rfl | ⟨hl, hu⟩
    · constructor <;> decide
    · rw [char_le_iff, toNat_zero_char] at hl
      rw [char_le_iff, toNat_nine_char] at hu
      omega
  have hnw : isJsonWs d = false := by
    simp only [isJsonWs, Bool.or_eq_false_iff, decide_eq_false_iff_not]
    refine ⟨⟨⟨?_, ?_⟩, ?_⟩, ?_⟩ <;> (intro hcon; rw [hcon] at hdn; revert hdn; decide)
  have hskip : skipWs (intRepr e ++ rest) = intRepr e ++ rest := by
    rw [hds, List.cons_append]
    unfold skipWs
    rw [List.dropWhile_cons_of_neg (by simp [hnw])]
  rw [jpVal.eq_def]
  split
  · omega
  · rw [hskip, hds, List.cons_append]
    split
    · rename_i heq
      exact (List.cons_ne_nil _ _ heq).elim
    · rename_i heq
      rw [List.cons.injEq] at heq
      exact absurd hdn (by rw [heq.1]; decide)
    · rename_i heq
      rw [List.cons.injEq] at heq
      exact absurd hdn (by rw [heq.1]; decide)
    · rename_i heq
      rw [List.cons.injEq] at heq
      exact absurd hdn (by rw [heq.1]; decide)
    · rename_i heq
      rw [List.cons.injEq] at heq
      exact absurd hdn (by rw [heq.1]; decide)
    · rename_i heq
      rw [List.cons.injEq] at heq
      exact absurd hdn (by rw [heq.1]; decide)
    · rename_i heq
      rw [List.cons.injEq] at heq
      exact absurd hdn (by rw [heq.1]; decide)
    · rw [← List.cons_append, ← hds, readJNum_intRepr e rest hr]
      rfl

theorem jpVal_str (f : Nat) (s rest : PyStr) :
    jpVal (f + 1) ('"' :: (jsonEscape s ++ '"' :: rest)) = some (.str s, rest) := by
  have h : jpVal (f + 1) ('"' :: (jsonEscape s ++ '"' :: rest)) =
      (readJStr (jsonEscape s ++ '"' :: rest)).map fun p => (Json.str p.1, p.2) := rfl
  rw [h, readJStr_escape_append]
  rfl

theorem jpObjItems_sub (f : Nat) (s : PyStr) :
    jpObjItems (f + 1 + 1)
      ('"' :: (pystr "sub" ++ '"' :: ':' :: ('"' :: (jsonEscape s ++ '"' :: ['\x7d'])))) =
      some ([(pystr "sub", .str s)], []) := by
  have a : jpObjItems (f + 1 + 1)
      ('"' :: (pystr "sub" ++ '"' :: ':' :: ('"' :: (jsonEscape s ++ '"' :: ['\x7d'])))) =
      match jpVal (f + 1) ('"' :: (jsonEscape s ++ '"' :: ['\x7d'])) with
      | none => none
      | some (v, r3) =>
        match skipWs r3 with
        | ',' :: r4 =>
          (match jpObjItems (f + 1) r4 with
          | some (kvs, r5) => some ((pystr "sub", v) :: kvs, r5)
          | none => none)
        | '\x7d' :: r4 => some ([(pystr "sub", v)], r4)
        | _ => none := rfl
  rw [a, jpVal_str f s ['\x7d']]
  rfl

theorem jpObjItems_expsub (f : Nat) (e : Int) (s : PyStr) :
    jpObjItems (f + 1 + 1 + 1)
      ('"' :: (pystr "exp" ++ '"' :: ':' :: (intRepr e ++ ',' ::
        ('"' :: (pystr "sub" ++ '"' :: ':' :: ('"' :: (jsonEscape s ++ '"' :: ['\x7d']))))))) =
      some ([(pystr "exp", .num e), (pystr "sub", .str s)], []) := by
  have hcomma : ∀ z zs,
      (',' :: ('"' :: (pystr "sub" ++ '"' :: ':' :: ('"' :: (jsonEscape s ++ '"' :: ['\x7d'])))) :
        PyStr) = z :: zs →
      ¬('0' ≤ z ∧ z ≤ '9') ∧ z ≠ '.' ∧ z ≠ 'e' ∧ z ≠ 'E' := by
    intro z zs hz
    rw [List.cons.injEq] at hz
    rw [← hz.1]
    refine ⟨?_, by decide, by decide, by decide⟩
    decide
  have a : jpObjItems (f + 1 + 1 + 1)
      ('"' :: (pystr "exp" ++ '"' :: ':' :: (intRepr e ++ ',' ::
        ('"' :: (pystr "sub" ++ '"' :: ':' :: ('"' :: (jsonEscape s ++ '"' :: ['\x7d']))))))) =
      match jpVal (f + 1 + 1) (intRepr e ++ ',' ::
          ('"' :: (pystr "sub" ++ '"' :: ':' :: ('"' :: (jsonEscape s ++ '"' :: ['\x7d']))))) with
      | none => none
      | some (v, r3) =>
        match skipWs r3 with
        | ',' :: r4 =>
          (match jpObjItems (f + 1 + 1) r4 with
          | some (kvs, r5) => some ((pystr "exp", v) :: kvs, r5)
          | none => none)
        | '\x7d' :: r4 => some ([(pystr "exp", v)], r4)
        | _ => none := rfl
  rw [a, jpVal_num (f + 1) e _ hcomma]
  trans (match jpObjItems (f + 1 + 1)
      ('"' :: (pystr "sub" ++ '"' :: ':' :: ('"' :: (jsonEscape s ++ '"' :: ['\x7d'])))) with
    | some (kvs, r5) => some ((pystr "exp", Json.num e) :: kvs, r5)
    | none => none)
  · rfl
  · rw [jpObjItems_sub f s]

theorem jpVal_claims (f : Nat) (e : Int) (s : PyStr) :
    jpVal (f + 4) ('\x7b' :: '"' :: 'e' :: 'x' :: 'p' :: '"' :: ':' ::
      (intRepr e ++ ',' :: '"' :: 's' :: 'u' :: 'b' :: '"' :: ':' :: '"' ::
        (jsonEscape s ++ '"' :: ['\x7d']))) =
      some (.obj [(pystr "exp", .num e), (pystr "sub", .str s)], []) := by
  trans (match jpObjItems (f + 1 + 1 + 1)
      ('"' :: (pystr "exp" ++ '"' :: ':' :: (intRepr e ++ ',' ::
        ('"' :: (pystr "sub" ++ '"' :: ':' :: ('"' :: (jsonEscape s ++ '"' :: ['\x7d']))))))) with
    | some (kvs, r2) => some (Json.obj kvs, r2)
    | none => none)
  · rfl
  · rw [jpObjItems_expsub f e s]

theorem jsonParseStr_of_jpVal (T : PyStr) (v : Json)
    (h : ∀ f, jpVal (f + 4) T = some (v, [])) (hlen : 3 ≤ T.length) :
    jsonParseStr T = some v := by
  unfold jsonParseStr
  have h2 := h (T.length - 3)
  rw [show T.length - 3 + 4 = T.length + 1 from by omega] at h2
  rw [h2]
  rfl

theorem pySplitGo_no_dot_append (a : PyStr) (ha : '.' ∉ a) (Y : PyStr) :
    ∀ acc, pySplitGo '.' [] (a ++ '.' :: Y) acc =
      (acc.reverse ++ a) :: pySplitGo '.' [] Y [] := by
  induction a with
  | nil =>
    intro acc
    rw [List.nil_append, pySplitGo]
    rw [if_pos (by simp [List.isPrefixOf])]
    simp
  | cons x xs ih =>
    intro acc
    have hx : x ≠ '.' := fun hcon => ha (by rw [hcon]; simp)
    rw [List.cons_append, pySplitGo]
    rw [if_neg (by simp [List.isPrefixOf, Bool.and_eq_true, beq_iff_eq]; intro h; exact absurd h.symm hx)]
    rw [ih (fun hcon => ha (by simp [hcon])) (x :: acc)]
    simp

theorem pySplitGo_no_dot_end (c : PyStr) (hc : '.' ∉ c) :
    ∀ acc, pySplitGo '.' [] c acc = [acc.reverse ++ c] := by
  induction c with
  | nil =>
    intro acc
    rw [pySplitGo]
    simp
  | cons x xs ih =>
    intro acc
    have hx : x ≠ '.' := fun hcon => hc (by rw [hcon]; simp)
    rw [pySplitGo]
    rw [if_neg (by simp [List.isPrefixOf, Bool.and_eq_true, beq_iff_eq]; intro h; exact absurd h.symm hx)]
    rw [ih (fun hcon => hc (by simp [hcon])) (x :: acc)]
    simp

theorem pySplit_three (a b c : PyStr) (ha : '.' ∉ a) (hb : '.' ∉ b) (hc : '.' ∉ c) :
    pySplit ['.'] ((a ++ '.' :: b) ++ '.' :: c) = [a, b, c] := by
  show pySplitGo '.' [] ((a ++ '.' :: b) ++ '.' :: c) [] = [a, b, c]
  rw [List.append_assoc, List.cons_append]
  rw [pySplitGo_no_dot_append a ha _ []]
  rw [pySplitGo_no_dot_append b hb c []]
  rw [pySplitGo_no_dot_end c hc []]
  simp

theorem b64urlEncode_no_dot (bs : List Nat) (h : ∀ x ∈ bs, x < 256) :
    '.' ∉ b64urlEncode bs := by
  intro hcon
  simp only [b64urlEncode, List.mem_map] at hcon
  obtain ⟨v, hv, hveq⟩ := hcon
  exact sextetChar_ne_dot v (b64EncodeGroups_lt bs h v hv) hveq

theorem macTag_bytes_lt (key msg : PyStr) :
    ∀ x ∈ utf8Encode key ++ 0xFF :: utf8Encode msg, x < 256 := by
  intro x hx
  rcases List.mem_append.mp hx with h | h
  · exact utf8Encode_lt key x h
  · rcases List.mem_cons.mp h with rfl | h
    · omega
    · exact utf8Encode_lt msg x h

theorem macTag_no_dot (key msg : PyStr) : '.' ∉ macTag key msg := by
  unfold macTag
  exact b64urlEncode_no_dot _ (macTag_bytes_lt key msg)

theorem decodeSegment_encode (str : PyStr) :
    decodeSegment (b64urlEncode (utf8Encode str)) = jsonParseStr str := by
  unfold decodeSegment
  rw [b64_pipeline_roundtrip (utf8Encode str) (utf8Encode_lt str)]
  show jsonParseBytes (utf8Encode str) = jsonParseStr str
  unfold jsonParseBytes
  rw [utf8_roundtrip]

theorem jsonSerialize_claims_eq (e : Int) (s : PyStr) :
    jsonSerialize (.obj [(pystr "exp", .num e), (pystr "sub", .str s)]) =
      '\x7b' :: '"' :: 'e' :: 'x' :: 'p' :: '"' :: ':' ::
        ((intRepr e ++ ',' :: '"' :: 's' :: 'u' :: 'b' :: '"' :: ':' :: '"' ::
          (jsonEscape s ++ ['"'])) ++ ['\x7d']) := rfl

theorem jsonParse_claims (e : Int) (s : PyStr) :
    jsonParseStr (jsonSerialize (.obj [(pystr "exp", .num e), (pystr "sub", .str s)])) =
      some (.obj [(pystr "exp", .num e), (pystr "sub", .str s)]) := by
  apply jsonParseStr_of_jpVal
  · intro f
    rw [jsonSerialize_claims_eq, List.append_assoc]
    simp only [List.cons_append, List.append_assoc, List.singleton_append]
    exact jpVal_claims f e s
  · rw [jsonSerialize_claims_eq]
    simp only [List.length_cons]
    omega

theorem jsonParse_header_hs256 :
    jsonParseStr (jsonSerialize (.obj [(pystr "alg", .str (pystr "HS256"))])) =
      some (.obj [(pystr "alg", .str (pystr "HS256"))]) := rfl

theorem jwtDecode_create (secret subject : PyStr) (now delta : Int) :
    jwtDecode (create_access_token secret subject now delta) secret =
      some [(pystr "exp", .num (now + delta)), (pystr "sub", .str subject)] := by
  simp only [create_access_token, jwtEncode, jwtDecode]
  rw [pySplit_three _ _ _ (b64urlEncode_no_dot _ (utf8Encode_lt _))
    (b64urlEncode_no_dot _ (utf8Encode_lt _)) (macTag_no_dot _ _)]
  simp only [decodeSegment_encode, jsonParse_header_hs256, jsonParse_claims]
  rw [show objGet [(pystr "alg", Json.str (pystr "HS256"))] (pystr "alg") =
    some (Json.str (pystr "HS256")) from rfl]
  simp only [beq_self_eq_true, if_true]

theorem detect_create_local (st : Settings) (secret subject : PyStr) (now delta : Int) :
    detect_token_type st (create_access_token secret subject now delta) = .LOCAL := by
  simp only [create_access_token, jwtEncode, detect_token_type]
  rw [pySplit_three _ _ _ (b64urlEncode_no_dot _ (utf8Encode_lt _))
    (b64urlEncode_no_dot _ (utf8Encode_lt _)) (macTag_no_dot _ _)]
  simp only [decodeSegment_encode, jsonParse_claims]
  rw [show objGet [(pystr "exp", Json.num (now + delta)), (pystr "sub", Json.str subject)]
    (pystr "iss") = none from rfl]

/-- C1 (code evaluation at the failing input): contrary to the claim,
`validate_local_token` never fails on an expired token.  It runs joserfc
`jwt.decode` alone, which checks structure and signature but not `exp` (no
`JWTClaimsRegistry` runs on the local path, unlike the OAuth path), and the
function does not even consult a clock.  For every secret, subject, issue
time and TTL — in particular TTL 0, where `exp` equals the issue time and is
in the past at every later moment — validation returns the claims. -/
theorem validate_local_token_accepts_expired (secret subject : PyStr)
    (issuedAt ttl : Int) :
    validate_local_token secret (create_access_token secret subject issuedAt ttl) =
      .ok [(pystr "exp", .num (issuedAt + ttl)), (pystr "sub", .str subject)] := by
  unfold validate_local_token
  rw [jwtDecode_create]

/-- C5: for every subject string and TTL, when the current time is before
issuance plus TTL, validating a freshly created access token succeeds and the
returned claims carry `sub == subject`. -/
theorem local_token_roundtrip (secret subject : PyStr) (issuedAt ttl now : Int)
    (hnow : now < issuedAt + ttl) :
    ∃ claims,
      validate_local_token secret (create_access_token secret subject issuedAt ttl) =
        .ok claims ∧ objGet claims (pystr "sub") = some (.str subject) :=
  ⟨[(pystr "exp", .num (issuedAt + ttl)), (pystr "sub", .str subject)],
    by unfold validate_local_token; rw [jwtDecode_create], rfl⟩

/-- Witness for C5 at a concrete input: subject `"alice"`, TTL 10, validated
at time 5. -/
theorem local_token_roundtrip_witness :
    (5 : Int) < 0 + 10 ∧
    ∃ claims,
      validate_local_token (pystr "k") (create_access_token (pystr "k") (pystr "alice") 0 10) =
        .ok claims ∧ objGet claims (pystr "sub") = some (.str (pystr "alice")) :=
  ⟨by decide, local_token_roundtrip (pystr "k") (pystr "alice") 0 10 5 (by decide)⟩

/-- C10: a token produced by `create_access_token` always classifies as LOCAL
under `detect_token_type`, for every configuration: it has three segments,
its payload decodes to exactly the claims `{exp, sub}`, and it carries no
`iss` claim, so the issuer comparison can never route it to the remote
path. -/
theorem create_access_token_classifies_local (st : Settings) (secret subject : PyStr)
    (now delta : Int) :
    detect_token_type st (create_access_token secret subject now delta) = .LOCAL ∧
    ∃ h64 sig,
      pySplit ['.'] (create_access_token secret subject now delta) =
        [h64, b64urlEncode (utf8Encode (jsonSerialize
          (.obj [(pystr "exp", .num (now + delta)), (pystr "sub", .str subject)]))), sig] ∧
      decodeSegment (b64urlEncode (utf8Encode (jsonSerialize
          (.obj [(pystr "exp", .num (now + delta)), (pystr "sub", .str subject)])))) =
        some (.obj [(pystr "exp", .num (now + delta)), (pystr "sub", .str subject)]) ∧
      objGet [(pystr "exp", .num (now + delta)), (pystr "sub", .str subject)]
        (pystr "iss") = none := by
  refine ⟨detect_create_local st secret subject now delta,
    b64urlEncode (utf8Encode (jsonSerialize (.obj [(pystr "alg", .str (pystr "HS256"))]))),
    macTag secret
      (b64urlEncode (utf8Encode (jsonSerialize (.obj [(pystr "alg", .str (pystr "HS256"))]))) ++
        '.' :: b64urlEncode (utf8Encode (jsonSerialize
          (.obj [(pystr "exp", .num (now + delta)), (pystr "sub", .str subject)])))),
    ?_, ?_, ?_⟩
  · unfold create_access_token jwtEncode
    exact pySplit_three _ _ _ (b64urlEncode_no_dot _ (utf8Encode_lt _))
      (b64urlEncode_no_dot _ (utf8Encode_lt _)) (macTag_no_dot _ _)
  · rw [decodeSegment_encode, jsonParse_claims]
  · rfl

/-- Concrete settings used by witnesses: issuer `https://idp.example`,
client id `myclient`, OAuth enabled. -/
def exSettings : Settings :=
  ⟨pystr "k", false, ⟨some (pystr "https://idp.example"), some (pystr "myclient"), none⟩⟩

/-- Fidelity of the decoder at data after completed padding: CPython's
non-strict `a2b_base64` stops at the `'='` completing a quad and ignores the
trailing junk, so a token whose middle segment is a valid payload followed by
`'='` and junk still decodes, and `detect_token_type` classifies it OAUTH
when its `iss` matches the configured issuer. -/
theorem detect_junk_after_padding :
    detect_token_type exSettings
      (pystr "h.eyJpc3MiOiJodHRwczovL2lkcC5leGFtcGxlIn0=x.s") = .OAUTH := by
  simp +decide [detect_token_type, pySplit, pySplitGo, decodeSegment, padTo4,
    b64urlDecodePy, a2bBase64, jsonParseBytes, utf8Decode, utf8Next, jsonParseStr,
    jpVal, jpObjItems, jpArrItems, skipWs, readJStr, readJNum, readJNat, spanDigits,
    digitsVal, objGet, rstripSlash, pystr, exSettings, isJsonWs, jsonUnescapeChar,
    decDigit, isB64DataChar, sextetVal]

/-- joserfc round trip at the JWS level: decoding an encoded token with the
signing key returns the claims, provided both serialized objects parse back
to themselves and the header carries a string `alg`. -/
theorem jwtDecode_jwtEncode (header claims : List (PyStr × Json)) (key : PyStr)
    (hh : jsonParseStr (jsonSerialize (.obj header)) = some (.obj header))
    (hc : jsonParseStr (jsonSerialize (.obj claims)) = some (.obj claims))
    (a : PyStr) (halg : objGet header (pystr "alg") = some (.str a)) :
    jwtDecode (jwtEncode (.obj header) (.obj claims) key) key = some claims := by
  simp only [jwtEncode, jwtDecode]
  rw [pySplit_three _ _ _ (b64urlEncode_no_dot _ (utf8Encode_lt _))
    (b64urlEncode_no_dot _ (utf8Encode_lt _)) (macTag_no_dot _ _)]
  simp only [decodeSegment_encode, hh, hc, halg]
  simp only [beq_self_eq_true, if_true]

/-- A minimal well-formed JWKS document: an object with a `keys` array. -/
def exJwks : Json := .obj [(pystr "keys", .arr [])]

/-- The model key the key-set import yields for `exJwks`. -/
def exKeySet : PyStr := jsonSerialize exJwks

/-- `validate_oauth_token` under `exSettings` with a good key fetch, reduced
to the part that depends on the token (everything before the decode is
concrete). -/
theorem validate_oauth_exSettings (token : PyStr) :
    validate_oauth_token exSettings (.ok exJwks) 1000 token =
      match jwtDecode token exKeySet with
      | none => .error .oauthTokenInvalid
      | some claims =>
        if jwtClaimsRegistryValidate (pystr "https://idp.example") 120 1000 claims = true then
          match objGet claims (pystr "aud") with
          | some aud =>
            if jsonTruthy aud = true then
              if ((audList aud).any fun j => isJsonStrEq j (pystr "myclient")) = true then
                .ok claims
              else .error .oauthTokenInvalid
            else .ok claims
          | none => .ok claims
        else .error .oauthTokenInvalid := rfl

/-- A remote token whose `iss` differs from the configured issuer only by a
trailing slash. -/
def exTokenSlashIss : PyStr :=
  jwtEncode (.obj [(pystr "alg", .str (pystr "RS256"))])
    (.obj [(pystr "iss", .str (pystr "https://idp.example/")),
           (pystr "sub", .str (pystr "u1"))]) exKeySet

/-- A remote token with exactly matching `iss` and a subject, carrying no
`aud` claim (and no time claims, which the registry then skips). -/
def exTokenNoAud : PyStr :=
  jwtEncode (.obj [(pystr "alg", .str (pystr "RS256"))])
    (.obj [(pystr "iss", .str (pystr "https://idp.example")),
           (pystr "sub", .str (pystr "u1"))]) exKeySet

/-- The claims carried by `exTokenNoAud`. -/
def exClaimsNoAud : List (PyStr × Json) :=
  [(pystr "iss", .str (pystr "https://idp.example")),
   (pystr "sub", .str (pystr "u1"))]

/-- C3 counterexample: with issuer `https://idp.example` configured, a token
whose `iss` is `https://idp.example/` — equal after trailing-slash stripping —
is rejected by `validate_oauth_token`, because `JWTClaimsRegistry` compares
`iss` by plain string equality with no normalization. -/
theorem oauth_iss_trailing_slash_rejected :
    rstripSlash (pystr "https://idp.example/") = rstripSlash (pystr "https://idp.example") ∧
    validate_oauth_token exSettings (.ok exJwks) 1000 exTokenSlashIss =
      .error .oauthTokenInvalid := by
  refine ⟨by decide, ?_⟩
  rw [validate_oauth_exSettings]
  rw [show jwtDecode exTokenSlashIss exKeySet =
      some [(pystr "iss", .str (pystr "https://idp.example/")),
            (pystr "sub", .str (pystr "u1"))] from
    jwtDecode_jwtEncode [(pystr "alg", .str (pystr "RS256"))]
      [(pystr "iss", .str (pystr "https://idp.example/")),
       (pystr "sub", .str (pystr "u1"))] exKeySet rfl rfl (pystr "RS256") rfl]
  rfl

/-- C3 amended: every token accepted by `validate_oauth_token` carries an
`iss` claim that equals the configured issuer by plain string equality (no
trailing-slash normalization; a slash-differing `iss` is rejected, as the
counterexample shows). -/
theorem validate_oauth_token_iss_exact (st : Settings) (jwksResult : Except Unit Json)
    (now : Int) (token : PyStr) (claims : List (PyStr × Json)) (cfg : PyStr)
    (hok : validate_oauth_token st jwksResult now token = .ok claims)
    (hcfg : st.oauth.ISSUER = some cfg) :
    objGet claims (pystr "iss") = some (.str cfg) := by
  unfold validate_oauth_token at hok
  split at hok
  · simp at hok
  · split at hok
    · simp at hok
    · rename_i issuer hiss
      rw [hcfg] at hiss
      injection hiss with hiss
      subst hiss
      split at hok
      · simp at hok
      · split at hok
        · simp at hok
        · split at hok
          · simp at hok
          · rename_i claims' hdec
            split at hok
            · rename_i hreg
              have hfirst : (match objGet claims' (pystr "iss") with
                  | some j => isJsonStrEq j cfg
                  | none => false) = true := by
                unfold jwtClaimsRegistryValidate at hreg
                simp only [Bool.and_eq_true] at hreg
                exact hreg.1.1.1.1
              have hclaims : claims' = claims := by
                split at hok
                · split at hok
                  · split at hok
                    · split at hok
                      · split at hok
                        · simp only [Except.ok.injEq] at hok; exact hok
                        · simp at hok
                      · simp only [Except.ok.injEq] at hok; exact hok
                    · simp only [Except.ok.injEq] at hok; exact hok
                  · simp only [Except.ok.injEq] at hok; exact hok
                · simp only [Except.ok.injEq] at hok; exact hok
              subst hclaims
              split at hfirst
              · rename_i j hj
                unfold isJsonStrEq at hfirst
                split at hfirst
                · rename_i t
                  simp only [beq_iff_eq] at hfirst
                  subst hfirst
                  exact hj
                · simp at hfirst
              · simp at hfirst
            · simp at hok

/-- Witness for C3 amended at a concrete accepted token. -/
theorem validate_oauth_token_iss_exact_witness :
    validate_oauth_token exSettings (.ok exJwks) 1000 exTokenNoAud = .ok exClaimsNoAud ∧
    exSettings.oauth.ISSUER = some (pystr "https://idp.example") ∧
    objGet exClaimsNoAud (pystr "iss") = some (.str (pystr "https://idp.example")) := by
  have hok : validate_oauth_token exSettings (.ok exJwks) 1000 exTokenNoAud =
      .ok exClaimsNoAud := by
    rw [validate_oauth_exSettings]
    rw [show jwtDecode exTokenNoAud exKeySet = some exClaimsNoAud from
      jwtDecode_jwtEncode [(pystr "alg", .str (pystr "RS256"))] exClaimsNoAud exKeySet
        rfl rfl (pystr "RS256") rfl]
    rfl
  exact ⟨hok, rfl, validate_oauth_token_iss_exact exSettings (.ok exJwks) 1000
    exTokenNoAud exClaimsNoAud (pystr "https://idp.example") hok rfl⟩

/-- C2 counterexample: with client id `myclient` configured, a token carrying
no `aud` claim at all is ACCEPTED — the `if aud:` guard on security.py line
127 skips the audience check entirely — refuting the claim that such a token
is rejected. -/
theorem oauth_no_aud_accepted :
    exSettings.oauth.CLIENT_ID = some (pystr "myclient") ∧
    objGet exClaimsNoAud (pystr "aud") = none ∧
    validate_oauth_token exSettings (.ok exJwks) 1000 exTokenNoAud = .ok exClaimsNoAud := by
  refine ⟨rfl, rfl, ?_⟩
  rw [validate_oauth_exSettings]
  rw [show jwtDecode exTokenNoAud exKeySet = some exClaimsNoAud from
    jwtDecode_jwtEncode [(pystr "alg", .str (pystr "RS256"))] exClaimsNoAud exKeySet
      rfl rfl (pystr "RS256") rfl]
  rfl

/-- C2 amended: the audience check applies only when the token carries a
truthy `aud` claim — in that case, with a client id configured, acceptance
implies the normalized audience list contains the client id; a token with no
(or falsy) `aud` skips the check. -/
theorem validate_oauth_token_aud_checked (st : Settings) (jwksResult : Except Unit Json)
    (now : Int) (token : PyStr) (claims : List (PyStr × Json)) (cid : PyStr) (aud : Json)
    (hok : validate_oauth_token st jwksResult now token = .ok claims)
    (hcid : st.oauth.CLIENT_ID = some cid) (hcidne : cid ≠ [])
    (haud : objGet claims (pystr "aud") = some aud) (htr : jsonTruthy aud = true) :
    ((audList aud).any fun j => isJsonStrEq j cid) = true := by
  unfold validate_oauth_token at hok
  split at hok
  · simp at hok
  · split at hok
    · simp at hok
    · split at hok
      · simp at hok
      · split at hok
        · simp at hok
        · split at hok
          · simp at hok
          · rename_i claims' hdec
            split at hok
            · split at hok
              · rename_i cid' hcid'
                split at hok
                · split at hok
                  · rename_i aud' haud'
                    split at hok
                    · split at hok
                      · rename_i hany
                        simp only [Except.ok.injEq] at hok
                        subst hok
                        rw [haud'] at haud
                        injection haud with haud
                        subst haud
                        rw [hcid] at hcid'
                        injection hcid' with hcid'
                        subst hcid'
                        exact hany
                      · simp at hok
                    · rename_i hnt
                      simp only [Except.ok.injEq] at hok
                      subst hok
                      rw [haud'] at haud
                      injection haud with haud
                      subst haud
                      exact absurd htr hnt
                  · rename_i hnone
                    simp only [Except.ok.injEq] at hok
                    subst hok
                    rw [hnone] at haud
                    exact absurd haud (by simp)
                · rename_i hemp
                  rw [hcid] at hcid'
                  injection hcid' with hcid'
                  subst hcid'
                  apply absurd _ hcidne
                  simpa using hemp
              · rename_i hnone
                rw [hnone] at hcid
                exact absurd hcid (by simp)
            · simp at hok

/-- A remote token carrying an `aud` list containing the client id. -/
def exTokenAud : PyStr :=
  jwtEncode (.obj [(pystr "alg", .str (pystr "RS256"))])
    (.obj [(pystr "iss", .str (pystr "https://idp.example")),
           (pystr "sub", .str (pystr "u1")),
           (pystr "aud", .arr [.str (pystr "myclient")])]) exKeySet

/-- The claims carried by `exTokenAud`. -/
def exClaimsAud : List (PyStr × Json) :=
  [(pystr "iss", .str (pystr "https://idp.example")),
   (pystr "sub", .str (pystr "u1")),
   (pystr "aud", .arr [.str (pystr "myclient")])]

/-- Witness for C2 amended at a concrete accepted token with an audience. -/
theorem validate_oauth_token_aud_checked_witness :
    validate_oauth_token exSettings (.ok exJwks) 1000 exTokenAud = .ok exClaimsAud ∧
    exSettings.oauth.CLIENT_ID = some (pystr "myclient") ∧
    objGet exClaimsAud (pystr "aud") = some (.arr [.str (pystr "myclient")]) ∧
    jsonTruthy (.arr [.str (pystr "myclient")]) = true ∧
    ((audList (.arr [.str (pystr "myclient")])).any fun j =>
      isJsonStrEq j (pystr "myclient")) = true := by
  have hok : validate_oauth_token exSettings (.ok exJwks) 1000 exTokenAud =
      .ok exClaimsAud := by
    rw [validate_oauth_exSettings]
    rw [show jwtDecode exTokenAud exKeySet = some exClaimsAud from
      jwtDecode_jwtEncode [(pystr "alg", .str (pystr "RS256"))] exClaimsAud exKeySet
        rfl rfl (pystr "RS256") rfl]
    rfl
  exact ⟨hok, rfl, rfl, rfl,
    validate_oauth_token_aud_checked exSettings (.ok exJwks) 1000 exTokenAud exClaimsAud
      (pystr "myclient") (.arr [.str (pystr "myclient")]) hok rfl (by decide) rfl rfl⟩

/-- C6 counterexample: a first fetch that succeeds — HTTP 200 with the valid
but empty JSON document `{}` — stores it and returns it, yet a second call 10
seconds later performs another network fetch, because the cache test
`if self._keys and self._fetched_at and ...` treats the empty dict as falsy.
This refutes "the second call performs no network fetch" as stated for every
successful first fetch. -/
theorem fetch_jwks_empty_dict_refetches :
    fetch_jwks exSettings ⟨none, none⟩ 0 (.ok (Json.obj [])) =
      (.ok (Json.obj []), ⟨some (Json.obj []), some 0⟩, 1) ∧
    (fetch_jwks exSettings ⟨some (Json.obj []), some 0⟩ 10 (.ok (Json.obj []))).2.2 = 1 :=
  ⟨rfl, rfl⟩

/-- C6 amended: when the cached key document is truthy (a non-empty dict), a
call strictly within one hour of the recorded fetch returns the cached set
with no network activity, and a call at or past one hour (with an issuer
configured) performs exactly one network fetch. -/
theorem fetch_jwks_cache_policy (st : Settings) (ks : Json) (t now : Int)
    (net : HttpJsonResult) (htruthy : jsonTruthy ks = true) :
    (now - t < 3600 →
      fetch_jwks st ⟨some ks, some t⟩ now net = (.ok ks, ⟨some ks, some t⟩, 0)) ∧
    (3600 ≤ now - t → truthyOptStr st.oauth.ISSUER = true →
      (fetch_jwks st ⟨some ks, some t⟩ now net).2.2 = 1) := by
  have hred : fetch_jwks st ⟨some ks, some t⟩ now net =
      if (jsonTruthy ks && decide (now - t < 3600)) = true then
        (.ok ks, ⟨some ks, some t⟩, 0)
      else fetchFreshJwks st ⟨some ks, some t⟩ now net := rfl
  constructor
  · intro h
    rw [hred, if_pos (by simp [htruthy, h])]
  · intro h hiss
    rw [hred, if_neg (by simp only [Bool.and_eq_true, decide_eq_true_eq, not_and]; intro _; omega)]
    unfold fetchFreshJwks
    rw [if_neg (by simp [hiss])]
    cases net with
    | error e => rfl
    | ok j => rfl

/-- Witness for C6 amended: a truthy cached document at t=0 is served from
cache at t=10 with no fetch; at t=5000 one fetch happens. -/
theorem fetch_jwks_cache_policy_witness :
    jsonTruthy exJwks = true ∧
    fetch_jwks exSettings ⟨some exJwks, some 0⟩ 10 (.ok (Json.obj [])) =
      (.ok exJwks, ⟨some exJwks, some 0⟩, 0) ∧
    (fetch_jwks exSettings ⟨some exJwks, some 0⟩ 5000 (.ok exJwks)).2.2 = 1 :=
  ⟨rfl,
   (fetch_jwks_cache_policy exSettings exJwks 0 10 (.ok (Json.obj [])) rfl).1 (by decide),
   (fetch_jwks_cache_policy exSettings exJwks 0 5000 (.ok exJwks) rfl).2 (by decide) rfl⟩

theorem findByOauthSubject_append (db : List UserRec) (x : UserRec) (sub : PyStr)
    (h : findByOauthSubject db sub = none) :
    findByOauthSubject (db ++ [x]) sub =
      if (x.oauth_subject == some sub) = true then some x else none := by
  unfold findByOauthSubject at h ⊢
  rw [List.find?_append, h]
  simp [List.find?_cons]
  split <;> rename_i hx
  · rw [if_pos (beq_iff_eq.mp hx)]
  · rw [if_neg (by simp at hx; exact hx)]

/-- C7: identity provisioning is idempotent.  Whenever a resolve call
succeeds, (a) if a user with the subject already existed it is returned
unchanged — same record, unchanged database, no userinfo network call — and
(b) a second resolve with the same claims returns the same user, leaves the
database unchanged and performs no network call, so exactly one row exists
for the subject. -/
theorem get_or_create_oauth_user_idempotent (st : Settings) (db : List UserRec)
    (payload : List (PyStr × Json)) (userinfo userinfo2 : Except Unit (Nat × Json))
    (u : UserRec) (db2 : List UserRec) (called : Bool)
    (h : get_or_create_oauth_user st db payload userinfo = (.ok u, db2, called)) :
    (∀ u0 sub, objGet payload (pystr "sub") = some (.str sub) →
       findByOauthSubject db sub = some u0 → u = u0 ∧ db2 = db ∧ called = false) ∧
    get_or_create_oauth_user st db2 payload userinfo2 = (.ok u, db2, false) := by
  unfold get_or_create_oauth_user at h
  split at h
  · simp at h
  · rename_i hd
    split at h
    all_goals try simp at h
    rename_i subject hsub
    split at h
    · simp at h
    · rename_i hne
      split at h
      · rename_i user hfind
        simp only [Prod.mk.injEq, Except.ok.injEq] at h
        obtain ⟨rfl, rfl, rfl⟩ := h
        constructor
        · intro u0 sub hsub2 hfind2
          rw [hsub] at hsub2
          injection hsub2 with hsub2
          injection hsub2 with hsub2
          subst hsub2
          rw [hfind] at hfind2
          injection hfind2 with hfind2
          exact ⟨hfind2, rfl, rfl⟩
        · unfold get_or_create_oauth_user
          rw [if_neg hd]
          simp only [hsub]
          rw [if_neg hne]
          simp only [hfind]
      · rename_i hfind
        simp only [] at h
        split at h
        · rename_i j heq
          split at h
          · simp only [Prod.mk.injEq, Except.ok.injEq] at h
            obtain ⟨hu, hdb2, hcalled⟩ := h
            subst hu
            subst hdb2
            subst hcalled
            constructor
            · intro u0 sub hsub2 hfind2
              rw [hsub] at hsub2
              injection hsub2 with hsub2
              injection hsub2 with hsub2
              subst hsub2
              rw [hfind] at hfind2
              exact absurd hfind2 (by simp)
            · unfold get_or_create_oauth_user
              rw [if_neg hd]
              simp only [hsub]
              rw [if_neg hne]
              rw [findByOauthSubject_append db _ subject hfind]
              simp only [beq_self_eq_true, if_true]
          · rw [Prod.mk.injEq] at h
            exact absurd h.1 (by simp)
        · rw [Prod.mk.injEq] at h
          exact absurd h.1 (by simp)

/-- A persisted OAuth user used by witnesses. -/
def exUser : UserRec :=
  ⟨7, .str (pystr "a@example.com"), none, true, false, none,
   some (pystr "idp.example"), some (pystr "u1")⟩

/-- Claims with subject `u1` and an email. -/
def exPayload : List (PyStr × Json) :=
  [(pystr "sub", .str (pystr "u1")), (pystr "email", .str (pystr "a@example.com"))]

/-- Witness for C7 at a concrete database already containing the subject. -/
theorem get_or_create_oauth_user_idempotent_witness :
    get_or_create_oauth_user exSettings [exUser] exPayload (.error ()) =
      (.ok exUser, [exUser], false) ∧
    ((∀ u0 sub, objGet exPayload (pystr "sub") = some (.str sub) →
        findByOauthSubject [exUser] sub = some u0 →
        exUser = u0 ∧ [exUser] = [exUser] ∧ false = false) ∧
      get_or_create_oauth_user exSettings [exUser] exPayload (.error ()) =
        (.ok exUser, [exUser], false)) :=
  ⟨rfl, get_or_create_oauth_user_idempotent exSettings [exUser] exPayload
    (.error ()) (.error ()) exUser [exUser] false rfl⟩

/-- C8: for claims with a subject but no (truthy) email, when the userinfo
fallback cannot supply a truthy email either — transport failure, non-200
status, non-object body, or a body without a truthy `email` — provisioning
fails with the missing-email error and the database is unchanged: no row is
created. -/
theorem get_or_create_missing_email (st : Settings) (db : List UserRec)
    (payload : List (PyStr × Json)) (userinfo : Except Unit (Nat × Json)) (sub : PyStr)
    (hd : st.DISABLE_OAUTH = false)
    (hsub : objGet payload (pystr "sub") = some (.str sub)) (hne : sub ≠ [])
    (hfind : findByOauthSubject db sub = none)
    (hemail : ∀ j, objGet payload (pystr "email") = some j → jsonTruthy j = false)
    (hbody : ∀ code body, userinfo = .ok (code, body) → code = 200 →
      ∀ bkvs, body = .obj bkvs → ∀ j, objGet bkvs (pystr "email") = some j →
        jsonTruthy j = false) :
    ∃ called, get_or_create_oauth_user st db payload userinfo =
      ((.error .missingEmail : Except ProvisionError UserRec), db, called) := by
  unfold get_or_create_oauth_user
  rw [if_neg (by simp [hd])]
  simp only [hsub]
  rw [if_neg (by simp [List.isEmpty_iff, hne])]
  simp only [hfind]
  split
  · rename_i e1 heq
    split
    · rename_i htr
      suffices hfalse : jsonTruthy e1 = false by simp [hfalse] at htr
      split at heq
      · split at heq
        · split at heq
          · split at heq
            · simp only [] at heq
              rename_i status body hok hcode bkvs hbody2
              exact hbody hok (Json.obj hbody2) rfl (by simpa using hcode)
                hbody2 rfl e1 heq
            · simp only [] at heq
              exact hemail e1 heq
          · simp only [] at heq
            exact hemail e1 heq
        · simp only [] at heq
          exact hemail e1 heq
      · simp only [] at heq
        exact hemail e1 heq
    · exact ⟨_, rfl⟩
  · exact ⟨_, rfl⟩

/-- Claims with subject `u1` and no email claim. -/
def exPayloadNoEmail : List (PyStr × Json) := [(pystr "sub", .str (pystr "u1"))]

/-- Witness for C8: empty database, no email claim, userinfo answers 500. -/
theorem get_or_create_missing_email_witness :
    exSettings.DISABLE_OAUTH = false ∧
    objGet exPayloadNoEmail (pystr "sub") = some (.str (pystr "u1")) ∧
    findByOauthSubject [] (pystr "u1") = none ∧
    ∃ called, get_or_create_oauth_user exSettings [] exPayloadNoEmail
        (.ok (500, Json.null)) = (.error .missingEmail, [], called) :=
  ⟨rfl, rfl, rfl,
    get_or_create_missing_email exSettings [] exPayloadNoEmail (.ok (500, Json.null))
      (pystr "u1") rfl rfl (by decide) rfl
      (fun j h => by
        rw [show objGet exPayloadNoEmail (pystr "email") = none from rfl] at h
        exact Option.noConfusion h)
      (fun code body hok hc => by
        injection hok with h1
        rw [Prod.mk.injEq] at h1
        intro bkvs hb j hj
        exact absurd hc (by omega))⟩

/-- Splitting worker on a string free of the separator's first character
returns the single piece `acc.reverse ++ b`. -/
theorem pySplitGo_no_head (s0 : Char) (srest : PyStr) (b : PyStr) (hb : s0 ∉ b) :
    ∀ acc, pySplitGo s0 srest b acc = [acc.reverse ++ b] := by
  induction b with
  | nil =>
    intro acc
    rw [pySplitGo]
    simp
  | cons x xs ih =>
    intro acc
    have hx : x ≠ s0 := fun hcon => hb (by rw [hcon]; simp)
    rw [pySplitGo]
    rw [if_neg (by simp [List.isPrefixOf, Bool.and_eq_true, beq_iff_eq]; intro h _; exact absurd h.symm hx)]
    rw [ih (fun hcon => hb (by simp [hcon])) (x :: acc)]
    simp

/-- Splitting on `//` consumes a slash-free prefix up to the first `//`. -/
theorem pySplitGo_slash2_append (a : PyStr) (ha : '/' ∉ a) (Y : PyStr) :
    ∀ acc, pySplitGo '/' ['/'] (a ++ '/' :: '/' :: Y) acc =
      (acc.reverse ++ a) :: pySplitGo '/' ['/'] Y [] := by
  induction a with
  | nil =>
    intro acc
    rw [List.nil_append, pySplitGo]
    rw [if_pos (by simp [List.isPrefixOf])]
    simp
  | cons x xs ih =>
    intro acc
    have hx : x ≠ '/' := fun hcon => ha (by rw [hcon]; simp)
    rw [List.cons_append, pySplitGo]
    rw [if_neg (by simp [List.isPrefixOf, Bool.and_eq_true, beq_iff_eq]; intro h _; exact absurd h.symm hx)]
    rw [ih (fun hcon => ha (by simp [hcon])) (x :: acc)]
    simp

/-- `"a//b".split("//") == [a, b]` when neither side contains a slash. -/
theorem pySplit_slash2 (a b : PyStr) (ha : '/' ∉ a) (hb : '/' ∉ b) :
    pySplit (pystr "//") (a ++ '/' :: '/' :: b) = [a, b] := by
  have h0 : pySplit (pystr "//") (a ++ '/' :: '/' :: b) =
      pySplitGo '/' ['/'] (a ++ '/' :: '/' :: b) [] := rfl
  rw [h0, pySplitGo_slash2_append a ha b [], pySplitGo_no_head '/' ['/'] b hb []]
  simp

/-- Splitting a slash-free string on `/` returns it whole. -/
theorem pySplit_slash1 (b : PyStr) (hb : '/' ∉ b) : pySplit (pystr "/") b = [b] := by
  have h0 : pySplit (pystr "/") b = pySplitGo '/' [] b [] := rfl
  rw [h0, pySplitGo_no_head '/' [] b hb []]
  simp

/-- The replacement worker is the identity on a string with no occurrence of
the pattern (no suffix starts with it). -/
theorem pyReplaceGo_no_occ (p0 : Char) (prest repl : PyStr) :
    ∀ s : PyStr, (∀ t, t <:+ s → ¬(p0 :: prest).isPrefixOf t) →
      pyReplaceGo p0 prest repl s = s := by
  intro s
  induction s with
  | nil => intro _; rw [pyReplaceGo]
  | cons c rest ih =>
    intro h
    rw [pyReplaceGo]
    rw [if_neg (fun hp => h (c :: rest) (List.suffix_refl _) hp)]
    rw [ih (fun t ht hp => h t (ht.trans (List.suffix_cons c rest)) hp)]

/-- Removing `www.` from `"www." ++ host` yields `host` when `host` itself
contains no occurrence of `www.`. -/
theorem pyReplace_www_leading (host : PyStr)
    (h : ∀ t, t <:+ host → ¬(pystr "www.").isPrefixOf t) :
    pyReplace (pystr "www.") [] (pystr "www." ++ host) = host := by
  have h0 : pyReplace (pystr "www.") [] (pystr "www." ++ host) =
      pyReplaceGo 'w' ['w', 'w', '.'] [] ('w' :: 'w' :: 'w' :: '.' :: host) := rfl
  rw [h0, pyReplaceGo]
  rw [if_pos (by simp [List.isPrefixOf])]
  show pyReplaceGo 'w' ['w', 'w', '.'] [] host = host
  exact pyReplaceGo_no_occ 'w' ['w', 'w', '.'] [] host h

/-- `rstrip` of `/` is the identity when the last character is not a slash. -/
theorem rstripSlash_eq_self (s : PyStr) (h : ∀ c, s.getLast? = some c → c ≠ '/') :
    rstripSlash s = s := by
  unfold rstripSlash
  cases hs : s.reverse with
  | nil =>
    simp [List.dropWhile]
    exact List.reverse_eq_nil_iff.mp hs
  | cons c rest =>
    have hc : c ≠ '/' := h c (by rw [← List.head?_reverse, hs]; rfl)
    rw [List.dropWhile_cons_of_neg (by simp [hc]), ← hs, List.reverse_reverse]

/-- The provider label of `https://www.<host>` is `<host>` whenever the host
is slash-free and contains no occurrence of `www.`. -/
theorem oauthProviderLabel_scheme_www (host : PyStr)
    (hslash : '/' ∉ host)
    (hwww : ∀ t ∈ host.tails, ¬(pystr "www.").isPrefixOf t) :
    oauthProviderLabel (some (pystr "https://www." ++ host)) = host := by
  have h0 : oauthProviderLabel (some (pystr "https://www." ++ host)) =
      pyReplace (pystr "www.") []
        ((pySplit (pystr "/")
          ((pySplit (pystr "//") (rstripSlash (pystr "https://www." ++ host))).getLastD
            [])).headD []) := rfl
  have hb : '/' ∉ pystr "www." ++ host := by
    intro hmem
    rw [List.mem_append] at hmem
    rcases hmem with h1 | h2
    · exact absurd h1 (by decide)
    · exact hslash h2
  have hrs : rstripSlash (pystr "https://www." ++ host) =
      pystr "https://www." ++ host := by
    apply rstripSlash_eq_self
    intro c hc hcc
    subst hcc
    cases host with
    | nil =>
      rw [List.append_nil] at hc
      exact absurd hc (by decide)
    | cons x xs =>
      rw [List.getLast?_append_cons] at hc
      obtain ⟨hne, hx⟩ := List.mem_getLast?_eq_getLast (Option.mem_def.mpr hc)
      exact hslash (by rw [hx]; exact List.getLast_mem hne)
  rw [h0, hrs]
  rw [show pystr "https://www." ++ host =
    pystr "https:" ++ '/' :: '/' :: (pystr "www." ++ host) from rfl]
  rw [pySplit_slash2 (pystr "https:") (pystr "www." ++ host) (by decide) hb]
  rw [show ([pystr "https:", pystr "www." ++ host].getLastD []) =
    pystr "www." ++ host from rfl]
  rw [pySplit_slash1 (pystr "www." ++ host) hb]
  rw [show ([pystr "www." ++ host].headD []) = pystr "www." ++ host from rfl]
  exact pyReplace_www_leading host (fun t ht => hwww t ((List.mem_tails t host).mpr ht))

/-- C9 counterexample: the code removes EVERY occurrence of `www.` from the
derived host, not only a leading label: for issuer
`https://auth.www.example.com` the stored provider label is
`auth.example.com`, while the claim's algorithm (strip only a leading
`www.`) would keep `auth.www.example.com`. -/
theorem oauthProviderLabel_interior_www :
    oauthProviderLabel (some (pystr "https://auth.www.example.com")) =
      pystr "auth.example.com" ∧
    pystr "auth.example.com" ≠ pystr "auth.www.example.com" := by
  constructor
  · simp +decide [oauthProviderLabel, pyReplace, pySplit, rstripSlash, pystr,
      pySplitGo, pyReplaceGo]
  · decide

/-- C9 (amended): the provider label is the issuer's host with scheme and
path removed and with every occurrence of `www.` deleted; when the host has
no interior occurrence this agrees with stripping a leading `www.` label,
and an unconfigured issuer yields the literal `oauth`. -/
theorem oauthProviderLabel_spec :
    oauthProviderLabel none = pystr "oauth" ∧
    (∀ host : PyStr, '/' ∉ host →
      (∀ t ∈ host.tails, ¬(pystr "www.").isPrefixOf t) →
      oauthProviderLabel (some (pystr "https://www." ++ host)) = host) ∧
    oauthProviderLabel (some (pystr "https://www.example.com/auth")) =
      pystr "example.com" := by
  refine ⟨rfl, fun host h1 h2 => oauthProviderLabel_scheme_www host h1 h2, ?_⟩
  simp +decide [oauthProviderLabel, pyReplace, pySplit, rstripSlash, pystr,
    pySplitGo, pyReplaceGo]

/-- Witness for C9 at the concrete host `idp.example`. -/
theorem oauthProviderLabel_spec_witness :
    ('/' ∉ pystr "idp.example" ∧
      ∀ t ∈ (pystr "idp.example").tails, ¬(pystr "www.").isPrefixOf t) ∧
    oauthProviderLabel (some (pystr "https://www." ++ pystr "idp.example")) =
      pystr "idp.example" :=
  ⟨⟨by decide, by decide⟩,
    oauthProviderLabel_spec.2.1 (pystr "idp.example") (by decide) (by decide)⟩
